import Mathlib

/-!
Verification of the ARAI-System visual-attention subsystem.

This file shallowly embeds the saliency / attention-analysis core of the
repository (backend/app/ai_modules/comprehensive_attention_analyzer.py,
backend/app/ai_modules/attention_analyzer.py, backend/training/dataset.py,
backend/training/train_saliency.py) and proves or refutes the frozen
specification claims about it.

Floating-point arithmetic of the source is idealized as exact arithmetic:
the discrete scoring layer is modelled over `ℚ` (every constant in that
layer is a decimal literal), and the image-processing layer, which uses
square roots and the exponential function, is modelled over `ℝ`.
External OpenCV / torchvision primitives invoked by the source
(cvtColor, GaussianBlur, blur, Canny, resize, ToTensor, Normalize) are
given definitional models that follow their documented semantics.
-/

namespace ARAI

/-! ## Issue severities and composite scoring
    Source: comprehensive_attention_analyzer.py, `_calculate_score`. -/

/-- Severity levels an issue record can carry (spec section 3 lists
critical, high, medium, low, info). -/
inductive Severity
  | critical
  | high
  | medium
  | low
  | info
  deriving DecidableEq, Repr

/-- Per-issue deduction applied by `_calculate_score`'s `elif` chain; any
severity not in the four listed branches (e.g. `info`) falls through with
no deduction. -/
def severityPenalty : Severity → ℚ
  | .critical => 10
  | .high => 7
  | .medium => 4
  | .low => 2
  | .info => 0

/-- `_calculate_score`: starts at 100, subtracts 30% of the cognitive-load
score, then walks the issue list subtracting the per-severity penalty,
finally returns `max(0, min(100, base_score))`.  The fold mirrors the
source's sequential `base_score -= ...` loop. -/
def calculate_score (clScore : ℚ) (issues : List Severity) : ℚ :=
  let base : ℚ := issues.foldl (fun b i => b - severityPenalty i) (100 - clScore * 0.3)
  max 0 (min 100 base)

/-! ## Cognitive-load score
    Source: comprehensive_attention_analyzer.py,
    `_calculate_cognitive_load_score`. -/

/-- `element_score = min(100, (element_count / 50) * 100)`. -/
def element_score (elementCount : ℕ) : ℚ :=
  min 100 ((elementCount : ℚ) / 50 * 100)

/-- `color_score = min(100, (colors / 10) * 100)`. -/
def color_score (colors : ℕ) : ℚ :=
  min 100 ((colors : ℚ) / 10 * 100)

/-- `density_score = (density / OPTIMAL_DENSITY) * 100` with
`OPTIMAL_DENSITY = 0.3`; note the source does not cap this sub-score. -/
def density_score (density : ℚ) : ℚ :=
  density / (0.3 : ℚ) * 100

/-- `entropy_score = min(100, (entropy / 6) * 100)`. -/
def entropy_score (entropy : ℚ) : ℚ :=
  min 100 (entropy / 6 * 100)

/-- `_calculate_cognitive_load_score`: weighted average of the four
sub-scores with weights 0.3 / 0.2 / 0.3 / 0.2, capped at 100. -/
def calculate_cognitive_load_score (elementCount colors : ℕ) (density entropy : ℚ) : ℚ :=
  min 100
    (element_score elementCount * 0.3 + color_score colors * 0.2 +
      density_score density * 0.3 + entropy_score entropy * 0.2)

/-! ## Visual-hierarchy assessment
    Source: comprehensive_attention_analyzer.py, `_assess_visual_hierarchy`.
    The saliency map argument is a `height × width` field of rationals. -/

/-- A saliency map of explicit spatial dimensions, rational-valued. -/
structure SalMapQ where
  height : ℕ
  width : ℕ
  val : ℕ → ℕ → ℚ

/-- Mean of a rectangular slice `rows [r0, r1) × cols [c0, c1)`
(numpy `array[r0:r1, c0:c1].mean()`). -/
def sliceMean (m : SalMapQ) (r0 r1 c0 c1 : ℕ) : ℚ :=
  (∑ y ∈ Finset.Ico r0 r1, ∑ x ∈ Finset.Ico c0 c1, m.val y x) /
    (((r1 - r0) * (c1 - c0) : ℕ) : ℚ)

/-- `saliency_map[:height//3, :].mean()`. -/
def top_third_attention (m : SalMapQ) : ℚ :=
  sliceMean m 0 (m.height / 3) 0 m.width

/-- `saliency_map[height//3:2*height//3, :].mean()` (python `2*height//3`
is `(2*height)//3`). -/
def middle_attention (m : SalMapQ) : ℚ :=
  sliceMean m (m.height / 3) (2 * m.height / 3) 0 m.width

/-- `saliency_map[2*height//3:, :].mean()`. -/
def bottom_attention (m : SalMapQ) : ℚ :=
  sliceMean m (2 * m.height / 3) m.height 0 m.width

/-- `saliency_map[:, :width//3].mean()`. -/
def left_attention (m : SalMapQ) : ℚ :=
  sliceMean m 0 m.height 0 (m.width / 3)

/-- `saliency_map[:, 2*width//3:].mean()`. -/
def right_attention (m : SalMapQ) : ℚ :=
  sliceMean m 0 m.height (2 * m.width / 3) m.width

/-- `np.var([top, middle, bottom])` — population variance of the three
horizontal band means. -/
def attention_variance (m : SalMapQ) : ℚ :=
  let t := top_third_attention m
  let mid := middle_attention m
  let b := bottom_attention m
  let mu := (t + mid + b) / 3
  ((t - mu) ^ 2 + (mid - mu) ^ 2 + (b - mu) ^ 2) / 3

/-- The ids of the issues `_assess_visual_hierarchy` appends, in source
order: inverted if `top < bottom`, right-heavy if `right > left * 1.5`,
flat if `var < 0.01`. -/
def assess_visual_hierarchy_issues (m : SalMapQ) : List String :=
  (if top_third_attention m < bottom_attention m then ["hierarchy_inverted"] else []) ++
    (if right_attention m > left_attention m * 1.5 then ["hierarchy_right_heavy"] else []) ++
      (if attention_variance m < 0.01 then ["hierarchy_flat"] else [])

/-! ## Critical-element importance classification
    Source: comprehensive_attention_analyzer.py,
    `_identify_critical_elements` (the per-region importance logic). -/

/-- `is_top = y < image_array.shape[0] * 0.3`. -/
def region_is_top (y imgHeight : ℕ) : Bool :=
  decide ((y : ℚ) < (imgHeight : ℚ) * 0.3)

/-- `is_large = area > 10000` where `area = w * h` of the bounding box. -/
def region_is_large (area : ℕ) : Bool :=
  decide (10000 < area)

/-- `is_centered = abs((x + w/2) - shape[1]/2) < shape[1] * 0.2`. -/
def region_is_centered (x w imgWidth : ℕ) : Bool :=
  decide (|(x : ℚ) + (w : ℚ) / 2 - (imgWidth : ℚ) / 2| < (imgWidth : ℚ) * 0.2)

/-- `importance = "high" if (is_top or is_large or is_centered) else "medium"`. -/
def region_importance (x y w h imgWidth imgHeight : ℕ) : String :=
  if region_is_top y imgHeight || region_is_large (w * h) || region_is_centered x w imgWidth
  then "high" else "medium"

/-! ## Trainer checkpoint policy
    Source: train_saliency.py, `SaliencyTrainer.train` (lines 103-120).
    The optimization itself is abstracted as the per-epoch sequence of
    (model state, optimizer state, train loss, validation loss) the loop
    observes; the save logic is translated literally.  `best_val_loss` is
    initialized to `float('inf')`, modelled by `⊤ : WithTop ℚ`. -/

/-- What one epoch of the training loop hands to the checkpoint logic. -/
structure EpochRecord (σ τ : Type) where
  modelState : σ
  optimState : τ
  trainLoss : ℚ
  valLoss : ℚ

/-- The dict persisted by `torch.save` every 10 epochs: epoch index (the
0-based loop variable), model weights, optimizer state, both losses. -/
structure CheckpointFile (σ τ : Type) where
  epoch : ℕ
  model_state_dict : σ
  optimizer_state_dict : τ
  train_loss : ℚ
  val_loss : ℚ
  deriving DecidableEq

/-- Observable effect of the checkpoint logic at one epoch. -/
structure EpochEvent (σ τ : Type) where
  savedBest : Bool
  bestFile : Option σ
  checkpointFile : Option (CheckpointFile σ τ)
  deriving DecidableEq

/-- The epoch loop of `SaliencyTrainer.train`, from epoch index `k` with
current `best_val_loss = best`: saves the best-model file when
`val_loss < best_val_loss` (then updates the running best), and saves a
full checkpoint when `(epoch + 1) % 10 == 0`. -/
def trainLoop {σ τ : Type} (best : WithTop ℚ) (k : ℕ) :
    List (EpochRecord σ τ) → List (EpochEvent σ τ)
  | [] => []
  | e :: rest =>
      let improved : Bool := decide ((e.valLoss : WithTop ℚ) < best)
      { savedBest := improved
        bestFile := if improved then some e.modelState else none
        checkpointFile :=
          if (k + 1) % 10 = 0 then
            some ⟨k, e.modelState, e.optimState, e.trainLoss, e.valLoss⟩
          else none } ::
        trainLoop (if improved then (e.valLoss : WithTop ℚ) else best) (k + 1) rest

/-- A full training run: `best_val_loss` starts at `float('inf')`,
epoch index at 0. -/
def trainRun {σ τ : Type} (epochs : List (EpochRecord σ τ)) : List (EpochEvent σ τ) :=
  trainLoop ⊤ 0 epochs

/-- Running minimum of a list of validation losses (`⊤` when empty). -/
def runningMin (vals : List ℚ) : WithTop ℚ :=
  vals.foldr (fun v acc => min (v : WithTop ℚ) acc) ⊤

/-! ## Inference vs training preprocessing
    Sources: comprehensive_attention_analyzer.py `__init__` (the
    `transforms.Compose([Resize((256,256)), ToTensor()])`) and
    training/dataset.py `SaliencyDataset.__init__` (the same plus
    `Normalize(mean=[0.485,0.456,0.406], std=[0.229,0.224,0.225])`). -/

/-- An RGB raster with rational pixel values (nominally 0..255). -/
structure ImgQ where
  height : ℕ
  width : ℕ
  pix : Fin 3 → ℕ → ℕ → ℚ

/-- Bilinear resampling to `H × W` with half-pixel centers and clamped
border indices; models the bilinear image resize used by
`transforms.Resize` / `cv2.resize`. -/
def bilinearResize (img : ImgQ) (H W : ℕ) : ImgQ where
  height := H
  width := W
  pix := fun c y x =>
    let fy : ℚ := ((y : ℚ) + 1 / 2) * (img.height : ℚ) / (H : ℚ) - 1 / 2
    let fx : ℚ := ((x : ℚ) + 1 / 2) * (img.width : ℚ) / (W : ℚ) - 1 / 2
    let y0 : ℤ := ⌊fy⌋
    let x0 : ℤ := ⌊fx⌋
    let dy : ℚ := Int.fract fy
    let dx : ℚ := Int.fract fx
    let at2 : ℤ → ℤ → ℚ := fun yy xx =>
      img.pix c (((max 0 (min yy ((img.height : ℤ) - 1))).toNat))
        (((max 0 (min xx ((img.width : ℤ) - 1))).toNat))
    (1 - dy) * (1 - dx) * at2 y0 x0 + (1 - dy) * dx * at2 y0 (x0 + 1) +
      dy * (1 - dx) * at2 (y0 + 1) x0 + dy * dx * at2 (y0 + 1) (x0 + 1)

/-- `transforms.ToTensor()` on an 8-bit channel value: scale to `[0,1]`. -/
def toTensorValue (v : ℚ) : ℚ := v / 255

/-- Per-channel means of `transforms.Normalize` in the training dataset. -/
def normalizeMean : Fin 3 → ℚ := ![0.485, 0.456, 0.406]

/-- Per-channel stds of `transforms.Normalize` in the training dataset. -/
def normalizeStd : Fin 3 → ℚ := ![0.229, 0.224, 0.225]

/-- Inference-time preprocessing (`ComprehensiveAttentionAnalyzer.transform`):
resize to 256×256 then `ToTensor` — no mean/std normalization. -/
def inferenceTensor (img : ImgQ) (c : Fin 3) (y x : ℕ) : ℚ :=
  toTensorValue ((bilinearResize img 256 256).pix c y x)

/-- Training-time preprocessing (`SaliencyDataset.image_transform`):
resize to 256×256, `ToTensor`, then per-channel `Normalize`. -/
def trainingTensor (img : ImgQ) (c : Fin 3) (y x : ℕ) : ℚ :=
  (toTensorValue ((bilinearResize img 256 256).pix c y x) - normalizeMean c) / normalizeStd c

/-! ## Real-valued image layer
    Pixel rasters and the OpenCV primitives `_heuristic_saliency` calls.
    All real-number arithmetic in Lean is noncomputable, so these carry
    the `noncomputable` modifier; they are nevertheless direct
    translations of the corresponding float computations. -/

/-- An RGB raster with real pixel values (nominally 0..255). -/
structure ImgR where
  height : ℕ
  width : ℕ
  pix : Fin 3 → ℕ → ℕ → ℝ

/-- cv2 `BORDER_REFLECT_101` index mapping (single reflection, which is
exact for kernel overhangs up to `n - 1` — all uses here). -/
def refl101 (n : ℕ) (i : ℤ) : ℕ :=
  if i < 0 then (-i).toNat
  else if i < (n : ℤ) then i.toNat
  else (2 * ((n : ℤ) - 1) - i).toNat

/-- Pixel access with reflected borders. -/
def pixR (img : ImgR) (c : Fin 3) (y x : ℤ) : ℝ :=
  img.pix c (refl101 img.height y) (refl101 img.width x)

/-- cv2 `cvtColor(..., COLOR_RGB2GRAY)`: `Y = 0.299 R + 0.587 G + 0.114 B`. -/
noncomputable def grayAt (img : ImgR) (y x : ℤ) : ℝ :=
  0.299 * pixR img 0 y x + 0.587 * pixR img 1 y x + 0.114 * pixR img 2 y x

/-- The 5-tap Gaussian kernel cv2 uses for `GaussianBlur(..., (5,5), 0)`
(the fixed small-kernel table, `[1,4,6,4,1]/16`). -/
noncomputable def g5 : Fin 5 → ℝ := ![1/16, 4/16, 6/16, 4/16, 1/16]

/-- `cv2.GaussianBlur(gray, (5, 5), 0)` at a pixel: separable 5×5
convolution with reflected borders. -/
noncomputable def gaussBlurGray (img : ImgR) (y x : ℕ) : ℝ :=
  ∑ j : Fin 5, ∑ i : Fin 5,
    g5 j * g5 i * grayAt img ((y : ℤ) + (j : ℕ) - 2) ((x : ℤ) + (i : ℕ) - 2)

/-- `contrast = np.abs(gray - blur)`. -/
noncomputable def contrastAt (img : ImgR) (y x : ℕ) : ℝ :=
  |grayAt img y x - gaussBlurGray img y x|

/-- `cv2.blur(image, (11, 11))` at a pixel of one channel: 11×11 box mean
with reflected borders. -/
noncomputable def boxMean11 (img : ImgR) (c : Fin 3) (y x : ℕ) : ℝ :=
  (∑ j : Fin 11, ∑ i : Fin 11, pixR img c ((y : ℤ) + (j : ℕ) - 5) ((x : ℤ) + (i : ℕ) - 5)) / 121

/-- `color_difference = np.sqrt(np.sum((image - mean_color) ** 2, axis=2))`. -/
noncomputable def colorDiffAt (img : ImgR) (y x : ℕ) : ℝ :=
  Real.sqrt (∑ c : Fin 3, (img.pix c y x - boxMean11 img c y x) ^ 2)

/-! ### Canny edge detector (model of `cv2.Canny(image, 50, 150)`)
    Sobel aperture 3 with reflected borders, per-channel L1 gradient
    magnitude with the strongest channel selected per pixel, non-maximum
    suppression along the quantized gradient direction, and
    double-threshold hysteresis over 8-connectivity. -/

/-- Sobel x-derivative of one channel, 3×3 aperture. -/
noncomputable def sobelXc (img : ImgR) (c : Fin 3) (y x : ℕ) : ℝ :=
  (pixR img c ((y : ℤ) - 1) ((x : ℤ) + 1) + 2 * pixR img c (y : ℤ) ((x : ℤ) + 1) +
      pixR img c ((y : ℤ) + 1) ((x : ℤ) + 1)) -
    (pixR img c ((y : ℤ) - 1) ((x : ℤ) - 1) + 2 * pixR img c (y : ℤ) ((x : ℤ) - 1) +
      pixR img c ((y : ℤ) + 1) ((x : ℤ) - 1))

/-- Sobel y-derivative of one channel, 3×3 aperture. -/
noncomputable def sobelYc (img : ImgR) (c : Fin 3) (y x : ℕ) : ℝ :=
  (pixR img c ((y : ℤ) + 1) ((x : ℤ) - 1) + 2 * pixR img c ((y : ℤ) + 1) (x : ℤ) +
      pixR img c ((y : ℤ) + 1) ((x : ℤ) + 1)) -
    (pixR img c ((y : ℤ) - 1) ((x : ℤ) - 1) + 2 * pixR img c ((y : ℤ) - 1) (x : ℤ) +
      pixR img c ((y : ℤ) - 1) ((x : ℤ) + 1))

/-- L1 gradient magnitude of one channel (`L2gradient=False`, the default). -/
noncomputable def magC (img : ImgR) (c : Fin 3) (y x : ℕ) : ℝ :=
  |sobelXc img c y x| + |sobelYc img c y x|

/-- Gradient magnitude used by Canny on a multi-channel input: the largest
per-channel magnitude. -/
noncomputable def cannyMag (img : ImgR) (y x : ℕ) : ℝ :=
  max (max (magC img 0 y x) (magC img 1 y x)) (magC img 2 y x)

open Classical in
/-- Channel whose gradient is selected at a pixel (ties to the later
channel, matching a running arg-max). -/
noncomputable def bestChannel (img : ImgR) (y x : ℕ) : Fin 3 :=
  if magC img 1 y x ≤ magC img 2 y x ∧ magC img 0 y x ≤ magC img 2 y x then 2
  else if magC img 0 y x ≤ magC img 1 y x then 1
  else 0

/-- Magnitude with out-of-range pixels treated as 0 (for the suppression
neighbours at the border). -/
noncomputable def magZ (img : ImgR) (y x : ℤ) : ℝ :=
  if 0 ≤ y ∧ y < (img.height : ℤ) ∧ 0 ≤ x ∧ x < (img.width : ℤ)
  then cannyMag img y.toNat x.toNat else 0

open Classical in
/-- Neighbour offset `(dy, dx)` for non-maximum suppression: the gradient
direction of the selected channel quantized to horizontal / vertical /
diagonal sectors at tan 22.5° = √2 − 1 and tan 67.5° = √2 + 1. -/
noncomputable def nmsOffset (img : ImgR) (y x : ℕ) : ℤ × ℤ :=
  let dx := sobelXc img (bestChannel img y x) y x
  let dy := sobelYc img (bestChannel img y x) y x
  if |dy| < |dx| * (Real.sqrt 2 - 1) then (0, 1)
  else if |dx| * (Real.sqrt 2 + 1) < |dy| then (1, 0)
  else if 0 ≤ dx * dy then (1, 1) else (1, -1)

/-- Non-maximum suppression: the pixel survives when its magnitude is a
local maximum along the quantized gradient direction. -/
noncomputable def nmsKeep (img : ImgR) (y x : ℕ) : Prop :=
  magZ img ((y : ℤ) + (nmsOffset img y x).1) ((x : ℤ) + (nmsOffset img y x).2) <
      cannyMag img y x ∧
    magZ img ((y : ℤ) - (nmsOffset img y x).1) ((x : ℤ) - (nmsOffset img y x).2) ≤
      cannyMag img y x

/-- A strong pixel: above the high threshold and surviving suppression. -/
noncomputable def strongPixel (img : ImgR) (high : ℝ) (p : ℕ × ℕ) : Prop :=
  high < cannyMag img p.1 p.2 ∧ nmsKeep img p.1 p.2

/-- A weak pixel: above the low threshold and surviving suppression. -/
noncomputable def weakPixel (img : ImgR) (low : ℝ) (p : ℕ × ℕ) : Prop :=
  low < cannyMag img p.1 p.2 ∧ nmsKeep img p.1 p.2

/-- 8-neighbourhood adjacency of grid pixels. -/
def adj8 (p q : ℕ × ℕ) : Prop :=
  p ≠ q ∧ (p.1 : ℤ) - q.1 ∈ Set.Icc (-1 : ℤ) 1 ∧ (p.2 : ℤ) - q.2 ∈ Set.Icc (-1 : ℤ) 1

/-- One hysteresis propagation step: move to an adjacent weak pixel. -/
noncomputable def cannyStep (img : ImgR) (low : ℝ) (p q : ℕ × ℕ) : Prop :=
  adj8 p q ∧ weakPixel img low q

/-- Hysteresis: an edge pixel is a weak pixel reachable from some strong
pixel through weak pixels. -/
noncomputable def isEdge (img : ImgR) (low high : ℝ) (p : ℕ × ℕ) : Prop :=
  weakPixel img low p ∧
    ∃ s, strongPixel img high s ∧ Relation.ReflTransGen (cannyStep img low) s p

open Classical in
/-- `cv2.Canny(image, low, high)` output value at a pixel (0 or 255). -/
noncomputable def cannyAt (img : ImgR) (low high : ℝ) (y x : ℕ) : ℝ :=
  if isEdge img low high (y, x) then 255 else 0

/-! ### Positional priors and the heuristic blend
    Source: `_heuristic_saliency` lines 209-234. -/

/-- The source's `max_distance = np.sqrt(center_x ** 2 + center_y ** 2)` with
`center_y, center_x = height // 2, width // 2`.  The source divides by it
UNGUARDED: for a 1×1 image both half-dimensions are 0, `max_distance = 0`,
and numpy evaluates `distance / max_distance` as `0.0 / 0.0 = NaN`, which
poisons the whole saliency map.  Lean's total division returns 0 at that
point instead, so statements about the degenerate input are made through
`maxDistance` vanishing (the division-by-zero event itself), and range
statements about the heuristic carry a `2 ≤ width ∨ 2 ≤ height`
non-degeneracy hypothesis under which the model's division agrees with
real division. -/
noncomputable def maxDistance (img : ImgR) : ℝ :=
  Real.sqrt (((img.width / 2 : ℕ) : ℝ) ^ 2 + ((img.height / 2 : ℕ) : ℝ) ^ 2)

/-- `center_bias = 1 - distance / max_distance` with
`center_y, center_x = height // 2, width // 2` (see `maxDistance` for the
unguarded division). -/
noncomputable def centerBias (img : ImgR) (y x : ℕ) : ℝ :=
  1 - Real.sqrt (((x : ℝ) - (img.width / 2 : ℕ)) ^ 2 + ((y : ℝ) - (img.height / 2 : ℕ)) ^ 2) /
      maxDistance img

/-- The F-pattern prior: sequential assignments
`f[:h//3, :] = 0.8`, `f[:, :w//4] = 0.9`, `f[h//3:2*h//3, :w//2] = 0.6`
(later assignments overwrite earlier ones; python `2*h//3` is `(2*h)//3`). -/
noncomputable def fPattern (h w y x : ℕ) : ℝ :=
  if h / 3 ≤ y ∧ y < 2 * h / 3 ∧ x < w / 2 then 0.6
  else if x < w / 4 then 0.9
  else if y < h / 3 then 0.8
  else 0

/-- The unnormalized feature blend of `_heuristic_saliency`:
`contrast*0.3 + color_difference*0.2 + edges*0.2 + center_bias*50*0.15 +
f_pattern*255*0.15`. -/
noncomputable def heurBlend (img : ImgR) (y x : ℕ) : ℝ :=
  contrastAt img y x * 0.3 + colorDiffAt img y x * 0.2 + cannyAt img 50 150 y x * 0.2 +
    centerBias img y x * 50 * 0.15 + fPattern img.height img.width y x * 255 * 0.15

/-- The pixel index grid of a `h × w` raster. -/
def pixelGrid (h w : ℕ) : Finset (ℕ × ℕ) :=
  Finset.range h ×ˢ Finset.range w

/-- `saliency.min()` over the image grid (0 for an empty raster). -/
noncomputable def blendMin (img : ImgR) : ℝ :=
  if hne : (pixelGrid img.height img.width).Nonempty then
    (pixelGrid img.height img.width).inf' hne (fun p => heurBlend img p.1 p.2)
  else 0

/-- `saliency.max()` over the image grid (0 for an empty raster). -/
noncomputable def blendMax (img : ImgR) : ℝ :=
  if hne : (pixelGrid img.height img.width).Nonempty then
    (pixelGrid img.height img.width).sup' hne (fun p => heurBlend img p.1 p.2)
  else 0

/-- `_heuristic_saliency`: the blend min-max normalized with the
`+ 1e-8` epsilon guard in the denominator. -/
noncomputable def heuristic_saliency (img : ImgR) (y x : ℕ) : ℝ :=
  (heurBlend img y x - blendMin img) / (blendMax img - blendMin img + 1e-8)

/-- A real-valued saliency map with explicit dimensions. -/
structure SalMapR where
  height : ℕ
  width : ℕ
  val : ℕ → ℕ → ℝ

/-- The heuristic saliency map has the spatial dimensions of its input. -/
noncomputable def heuristic_saliency_map (img : ImgR) : SalMapR :=
  ⟨img.height, img.width, heuristic_saliency img⟩

/-- Modelled on the amended claim wording for C2: the same blend written
as a plain weighted sum, with the scale factors folded into the weights
(center bias `0.15·50 = 7.5`, F-pattern `0.15·255 = 38.25`). -/
noncomputable def claimBlendC2 (img : ImgR) (y x : ℕ) : ℝ :=
  0.3 * contrastAt img y x + 0.2 * colorDiffAt img y x + 0.2 * cannyAt img 50 150 y x +
    7.5 * centerBias img y x + 38.25 * fPattern img.height img.width y x

/-- Mean value of a map over a region of pixels. -/
noncomputable def regionMean (f : ℕ → ℕ → ℝ) (R : Finset (ℕ × ℕ)) : ℝ :=
  (∑ p ∈ R, f p.1 p.2) / (R.card : ℝ)

/-! ## The SaliencyModel U-Net
    Source: comprehensive_attention_analyzer.py, class `SaliencyModel`.
    Tensors are channel-indexed pixel fields; each layer is the standard
    arithmetic of the corresponding `torch.nn` module. -/

/-- Weights and bias of one convolution layer (`weight[out, in, ky, kx]`;
for `ConvTranspose2d` torch stores `weight[in, out, ky, kx]`). -/
structure ConvParams where
  w : ℕ → ℕ → ℕ → ℕ → ℝ
  b : ℕ → ℝ

/-- Zero padding: tensor access clipped to the `h × wd` support. -/
def zpad (t : ℕ → ℕ → ℕ → ℝ) (h wd : ℕ) (i : ℕ) (y x : ℤ) : ℝ :=
  if 0 ≤ y ∧ y < (h : ℤ) ∧ 0 ≤ x ∧ x < (wd : ℤ) then t i y.toNat x.toNat else 0

/-- `nn.Conv2d(cin, cout, 3, padding=1)` on an `h × wd` tensor. -/
noncomputable def conv3x3 (p : ConvParams) (cin h wd : ℕ) (t : ℕ → ℕ → ℕ → ℝ) :
    ℕ → ℕ → ℕ → ℝ :=
  fun o y x =>
    p.b o + ∑ i ∈ Finset.range cin, ∑ ky ∈ Finset.range 3, ∑ kx ∈ Finset.range 3,
      p.w o i ky kx * zpad t h wd i ((y : ℤ) + ky - 1) ((x : ℤ) + kx - 1)

/-- `nn.ReLU`. -/
noncomputable def reluT (t : ℕ → ℕ → ℕ → ℝ) : ℕ → ℕ → ℕ → ℝ :=
  fun i y x => max (t i y x) 0

/-- One `_conv_block`: Conv3×3 → ReLU → Conv3×3 → ReLU, channel widths
`cin → cout → cout`. -/
noncomputable def convBlockApply (p q : ConvParams) (cin cout h wd : ℕ)
    (t : ℕ → ℕ → ℕ → ℝ) : ℕ → ℕ → ℕ → ℝ :=
  reluT (conv3x3 q cout h wd (reluT (conv3x3 p cin h wd t)))

/-- `nn.MaxPool2d(2, 2)`. -/
noncomputable def maxPool2 (t : ℕ → ℕ → ℕ → ℝ) : ℕ → ℕ → ℕ → ℝ :=
  fun i y x =>
    max (max (t i (2 * y) (2 * x)) (t i (2 * y) (2 * x + 1)))
      (max (t i (2 * y + 1) (2 * x)) (t i (2 * y + 1) (2 * x + 1)))

/-- `nn.ConvTranspose2d(cin, cout, 2, stride=2)`: kernel and stride 2 do
not overlap, so output `(y, x)` is fed by input `(y/2, x/2)` through
kernel tap `(y%2, x%2)`. -/
noncomputable def convT2x2 (p : ConvParams) (cin : ℕ) (t : ℕ → ℕ → ℕ → ℝ) :
    ℕ → ℕ → ℕ → ℝ :=
  fun o y x => p.b o + ∑ i ∈ Finset.range cin, p.w i o (y % 2) (x % 2) * t i (y / 2) (x / 2)

/-- `torch.cat([t1, t2], dim=1)` where `t1` has `c1` channels. -/
def catChannels (c1 : ℕ) (t1 t2 : ℕ → ℕ → ℕ → ℝ) : ℕ → ℕ → ℕ → ℝ :=
  fun i y x => if i < c1 then t1 i y x else t2 (i - c1) y x

/-- `nn.Conv2d(cin, cout, 1)`. -/
noncomputable def conv1x1 (p : ConvParams) (cin : ℕ) (t : ℕ → ℕ → ℕ → ℝ) :
    ℕ → ℕ → ℕ → ℝ :=
  fun o y x => p.b o + ∑ i ∈ Finset.range cin, p.w o i 0 0 * t i y x

/-- `nn.Sigmoid`: `1 / (1 + exp(-z))`. -/
noncomputable def sigmoid (z : ℝ) : ℝ := 1 / (1 + Real.exp (-z))

/-- All learned parameters of `SaliencyModel`. -/
structure SaliencyModelParams where
  enc1a : ConvParams
  enc1b : ConvParams
  enc2a : ConvParams
  enc2b : ConvParams
  enc3a : ConvParams
  enc3b : ConvParams
  bota : ConvParams
  botb : ConvParams
  up3 : ConvParams
  dec3a : ConvParams
  dec3b : ConvParams
  up2 : ConvParams
  dec2a : ConvParams
  dec2b : ConvParams
  up1 : ConvParams
  dec1a : ConvParams
  dec1b : ConvParams
  outc : ConvParams

/-- `SaliencyModel.forward` on a 3×256×256 input tensor: the three
encoder stages with pooling, the bottleneck, the three decoder stages
with skip concatenations, the 1×1 output convolution, and the sigmoid. -/
noncomputable def SaliencyModel_forward (P : SaliencyModelParams)
    (t : ℕ → ℕ → ℕ → ℝ) : ℕ → ℕ → ℕ → ℝ :=
  let e1 := convBlockApply P.enc1a P.enc1b 3 64 256 256 t
  let e2 := convBlockApply P.enc2a P.enc2b 64 128 128 128 (maxPool2 e1)
  let e3 := convBlockApply P.enc3a P.enc3b 128 256 64 64 (maxPool2 e2)
  let bn := convBlockApply P.bota P.botb 256 512 32 32 (maxPool2 e3)
  let d3 := convBlockApply P.dec3a P.dec3b 512 256 64 64
    (catChannels 256 (convT2x2 P.up3 512 bn) e3)
  let d2 := convBlockApply P.dec2a P.dec2b 256 128 128 128
    (catChannels 128 (convT2x2 P.up2 256 d3) e2)
  let d1 := convBlockApply P.dec1a P.dec1b 128 64 256 256
    (catChannels 64 (convT2x2 P.up1 128 d2) e1)
  fun o y x => sigmoid (conv1x1 P.outc 64 d1 o y x)

/-- torch output-size arithmetic for a convolution. -/
def convOutSize (n k p s : ℕ) : ℕ := (n + 2 * p - k) / s + 1

/-- Spatial size after one `_conv_block` (two 3×3 convs, padding 1). -/
def convBlockSize (n : ℕ) : ℕ := convOutSize (convOutSize n 3 1 1) 3 1 1

/-- Spatial size after `nn.MaxPool2d(2, 2)`. -/
def poolSize (n : ℕ) : ℕ := convOutSize n 2 0 2

/-- Spatial size after `nn.ConvTranspose2d(_, _, 2, stride=2)`. -/
def convTSize (n : ℕ) : ℕ := (n - 1) * 2 + 2

/-- Spatial size of `SaliencyModel.forward`'s output for an `n × n` input
(the final 1×1 convolution and sigmoid preserve spatial size). -/
def SaliencyModel_outSize (n : ℕ) : ℕ :=
  let s1 := convBlockSize n
  let s2 := convBlockSize (poolSize s1)
  let s3 := convBlockSize (poolSize s2)
  let sb := convBlockSize (poolSize s3)
  let d3 := convBlockSize (convTSize sb)
  let d2 := convBlockSize (convTSize d3)
  convBlockSize (convTSize d2)

/-! ## Saliency-source selection (heuristic fallback)
    Sources: `ComprehensiveAttentionAnalyzer.__init__` and
    `_generate_saliency_heatmap`; `AttentionAnalyzer.__init__` in
    attention_analyzer.py. -/

/-- Which computation produces the saliency map of an analysis run. -/
inductive SalSource
  | trainedModel
  | untrainedModel
  | heuristic
  deriving DecidableEq, Repr

/-- `ComprehensiveAttentionAnalyzer.__init__`: `self.model` is the loaded
model exactly when the weight file exists (`os.path.exists`), otherwise
it is set to `None`. -/
def comprehensiveModelLoaded (weightsPresent : Bool) : Bool := weightsPresent

/-- The branch `_generate_saliency_heatmap` takes: the trained model when
`self.model` is set, else `_heuristic_saliency`. -/
def comprehensiveSalSource (weightsPresent : Bool) : SalSource :=
  if comprehensiveModelLoaded weightsPresent then .trainedModel else .heuristic

/-- The single line `ComprehensiveAttentionAnalyzer.__init__` prints. -/
def comprehensiveInitLog (weightsPresent : Bool) : List String :=
  if weightsPresent then ["Loaded saliency model"]
  else ["Model not found. Using heuristic-based analysis."]

/-- `AttentionAnalyzer.__init__` (attention_analyzer.py): the freshly
constructed, randomly initialized model is kept; trained weights are
loaded into it only when the file exists.  With the file absent the
analyzer proceeds with the untrained model, not the heuristic. -/
def legacySalSource (weightsPresent : Bool) : SalSource :=
  if weightsPresent then .trainedModel else .untrainedModel

/-- The single line `AttentionAnalyzer.__init__` prints. -/
def legacyInitLog (weightsPresent : Bool) : List String :=
  if weightsPresent then ["Loaded saliency model"]
  else ["Warning: Model not found. Using random predictions."]

/-- Bilinear resampling of a single-channel real map to `H × W`
(models `cv2.resize(saliency_map, (width, height))`, default
`INTER_LINEAR`): half-pixel centers, clamped border indices. -/
noncomputable def salResize (m : SalMapR) (H W : ℕ) : SalMapR where
  height := H
  width := W
  val := fun y x =>
    let fy : ℝ := ((y : ℝ) + 1 / 2) * (m.height : ℝ) / (H : ℝ) - 1 / 2
    let fx : ℝ := ((x : ℝ) + 1 / 2) * (m.width : ℝ) / (W : ℝ) - 1 / 2
    let y0 : ℤ := ⌊fy⌋
    let x0 : ℤ := ⌊fx⌋
    let at2 : ℤ → ℤ → ℝ := fun yy xx =>
      m.val ((max 0 (min yy ((m.height : ℤ) - 1))).toNat)
        ((max 0 (min xx ((m.width : ℤ) - 1))).toNat)
    (1 - Int.fract fy) * (1 - Int.fract fx) * at2 y0 x0 +
      (1 - Int.fract fy) * Int.fract fx * at2 y0 (x0 + 1) +
      Int.fract fy * (1 - Int.fract fx) * at2 (y0 + 1) x0 +
      Int.fract fy * Int.fract fx * at2 (y0 + 1) (x0 + 1)

/-- `_create_heatmap_overlay` returns this fixed path string. -/
def create_heatmap_overlay : String := "heatmap_overlay_path"

/-- The source-independent tail of `_generate_saliency_heatmap`: resize
the chosen map back to the original image size and build the overlay.
Both branches of the source funnel their map through exactly this code. -/
noncomputable def generateSaliencyPost (origH origW : ℕ) (m : SalMapR) : SalMapR × String :=
  (salResize m origH origW, create_heatmap_overlay)

/-- Bilinear resampling of an RGB raster (models `transforms.Resize`). -/
noncomputable def imgResizeR (img : ImgR) (H W : ℕ) : ImgR where
  height := H
  width := W
  pix := fun c y x =>
    let fy : ℝ := ((y : ℝ) + 1 / 2) * (img.height : ℝ) / (H : ℝ) - 1 / 2
    let fx : ℝ := ((x : ℝ) + 1 / 2) * (img.width : ℝ) / (W : ℝ) - 1 / 2
    let y0 : ℤ := ⌊fy⌋
    let x0 : ℤ := ⌊fx⌋
    let at2 : ℤ → ℤ → ℝ := fun yy xx =>
      img.pix c ((max 0 (min yy ((img.height : ℤ) - 1))).toNat)
        ((max 0 (min xx ((img.width : ℤ) - 1))).toNat)
    (1 - Int.fract fy) * (1 - Int.fract fx) * at2 y0 x0 +
      (1 - Int.fract fy) * Int.fract fx * at2 y0 (x0 + 1) +
      Int.fract fy * (1 - Int.fract fx) * at2 (y0 + 1) x0 +
      Int.fract fy * Int.fract fx * at2 (y0 + 1) (x0 + 1)

/-- `self.transform(image)`: resize to 256×256 and `ToTensor` (scale to
`[0,1]`); channel indices beyond the three RGB planes do not occur. -/
noncomputable def imgToTensor (img : ImgR) : ℕ → ℕ → ℕ → ℝ :=
  fun c y x =>
    if hc : c < 3 then (imgResizeR img 256 256).pix ⟨c, hc⟩ y x / 255 else 0

/-- The model branch's saliency map: `forward` output channel 0, a
256×256 single-channel field. -/
noncomputable def modelSalMap (P : SaliencyModelParams) (img : ImgR) : SalMapR :=
  ⟨SaliencyModel_outSize 256, SaliencyModel_outSize 256,
    fun y x => SaliencyModel_forward P (imgToTensor img) 0 y x⟩

/-- `_generate_saliency_heatmap`: pick the map from the trained model when
loaded, else from the heuristic, then run the shared tail. -/
noncomputable def generate_saliency_heatmap (weightsPresent : Bool)
    (P : SaliencyModelParams) (img : ImgR) : SalMapR × String :=
  let m :=
    if comprehensiveModelLoaded weightsPresent then modelSalMap P img
    else heuristic_saliency_map img
  generateSaliencyPost img.height img.width m

/-! ## Concrete test rasters and regions used by witnesses and
    counterexamples. -/

/-- The constant-255 (pure white) 1×1 test raster. -/
def imgWhiteQ : ImgQ := ⟨1, 1, fun _ _ _ => 255⟩

/-- A 1×1 zero raster over `ℝ`. -/
noncomputable def imgUnitR : ImgR := ⟨1, 1, fun _ _ _ => 0⟩

/-- The constant 6×6 raster (all channels 100): a zero-variance image. -/
noncomputable def imgConst100 : ImgR := ⟨6, 6, fun _ _ _ => 100⟩

/-- 120×120 near-white raster: uniform background 251 with a bright
(255-valued) 40×40 square at rows/cols 76..115 — a bright square in the
bottom-right quadrant with faint contrast. -/
noncomputable def imgSqBR : ImgR :=
  ⟨120, 120, fun _ y x => if 76 ≤ y ∧ y ≤ 115 ∧ 76 ≤ x ∧ x ≤ 115 then 255 else 251⟩

/-- 120×120 raster: uniform background 200 with a bright (255-valued)
40×40 square at rows/cols 0..39 — a high-contrast square in the top-left
corner. -/
noncomputable def imgSqTL : ImgR :=
  ⟨120, 120, fun _ y x => if y ≤ 39 ∧ x ≤ 39 then 255 else 200⟩

/-- The bottom-right square region (rows 76..115 × cols 76..115). -/
def sqRegionBR : Finset (ℕ × ℕ) := Finset.Ico 76 116 ×ˢ Finset.Ico 76 116

/-- Its background: everything else on the 120×120 grid. -/
def bgRegionBR : Finset (ℕ × ℕ) := pixelGrid 120 120 \ sqRegionBR

/-- The top-left square region (rows 0..39 × cols 0..39). -/
def sqRegionTL : Finset (ℕ × ℕ) := Finset.Ico 0 40 ×ˢ Finset.Ico 0 40

/-- Its background: everything else on the 120×120 grid. -/
def bgRegionTL : Finset (ℕ × ℕ) := pixelGrid 120 120 \ sqRegionTL

/-! # Theorems -/

/-- The sequential penalty subtraction equals subtracting the penalty sum. -/
lemma foldl_sub_penalty (issues : List Severity) (start : ℚ) :
    issues.foldl (fun b i => b - severityPenalty i) start
      = start - (issues.map severityPenalty).sum := by
  induction issues generalizing start with
  | nil => simp
  | cons a l ih => simp only [List.foldl_cons, List.map_cons, List.sum_cons, ih]; ring

/-- C4: for every cognitive-load score c in [0,100] and every issue list,
the composite attention score equals 100 minus 0.3·c minus the sum of
per-issue penalties (critical 10, high 7, medium 4, low 2), clamped to
[0,100]; it is exactly 0 when the deductions exceed 100 and exactly 100
when the issue list is empty and c is 0. -/
theorem C4_composite_score (c : ℚ) (issues : List Severity)
    (hc0 : 0 ≤ c) (hc1 : c ≤ 100) :
    calculate_score c issues
        = max 0 (min 100 (100 - 0.3 * c - (issues.map severityPenalty).sum)) ∧
      (100 < 0.3 * c + (issues.map severityPenalty).sum → calculate_score c issues = 0) ∧
      (issues = [] → c = 0 → calculate_score c issues = 100) := by
  have hbase : calculate_score c issues
      = max 0 (min 100 (100 - 0.3 * c - (issues.map severityPenalty).sum)) := by
    unfold calculate_score
    rw [foldl_sub_penalty]
    ring_nf
  refine ⟨hbase, ?_, ?_⟩
  · intro hover
    rw [hbase]
    have hneg : 100 - 0.3 * c - (issues.map severityPenalty).sum < 0 := by linarith
    rw [min_eq_right (by linarith), max_eq_left (by linarith)]
  · rintro rfl rfl
    simp [calculate_score]

/-- Witness for C4 at a concrete load and issue list. -/
theorem C4_composite_score_witness :
    calculate_score 50 [Severity.high, Severity.low]
        = max 0 (min 100 (100 - 0.3 * 50 -
            ([Severity.high, Severity.low].map severityPenalty).sum)) ∧
      (100 < 0.3 * 50 + ([Severity.high, Severity.low].map severityPenalty).sum →
        calculate_score 50 [Severity.high, Severity.low] = 0) ∧
      ([Severity.high, Severity.low] = ([] : List Severity) → (50 : ℚ) = 0 →
        calculate_score 50 [Severity.high, Severity.low] = 100) :=
  C4_composite_score 50 [Severity.high, Severity.low] (by norm_num) (by norm_num)

lemma element_score_mono {e e' : ℕ} (h : e ≤ e') : element_score e ≤ element_score e' := by
  unfold element_score
  refine min_le_min le_rfl ?_
  gcongr <;> exact_mod_cast h

lemma color_score_mono {c c' : ℕ} (h : c ≤ c') : color_score c ≤ color_score c' := by
  unfold color_score
  refine min_le_min le_rfl ?_
  gcongr <;> exact_mod_cast h

lemma density_score_mono {d d' : ℚ} (h : d ≤ d') : density_score d ≤ density_score d' := by
  unfold density_score
  gcongr <;> norm_num

lemma entropy_score_mono {s s' : ℚ} (h : s ≤ s') : entropy_score s ≤ entropy_score s' := by
  unfold entropy_score
  refine min_le_min le_rfl ?_
  gcongr <;> norm_num

/-- C5: the cognitive-load score — the weighted (0.3, 0.2, 0.3, 0.2)
combination of the element-count, dominant-color, visual-density and
entropy sub-scores, capped at 100 — is monotonically non-decreasing in
each of element count, color count, density and entropy with the other
three held fixed (stated jointly, which subsumes the four one-variable
statements). -/
theorem C5_cognitive_load_monotone (e e' colors colors' : ℕ) (d d' s s' : ℚ)
    (he : e ≤ e') (hco : colors ≤ colors') (hd : d ≤ d') (hs : s ≤ s') :
    calculate_cognitive_load_score e colors d s
      ≤ calculate_cognitive_load_score e' colors' d' s' := by
  unfold calculate_cognitive_load_score
  refine min_le_min le_rfl ?_
  have g1 := mul_le_mul_of_nonneg_right (element_score_mono he) (by norm_num : (0:ℚ) ≤ 0.3)
  have g2 := mul_le_mul_of_nonneg_right (color_score_mono hco) (by norm_num : (0:ℚ) ≤ 0.2)
  have g3 := mul_le_mul_of_nonneg_right (density_score_mono hd) (by norm_num : (0:ℚ) ≤ 0.3)
  have g4 := mul_le_mul_of_nonneg_right (entropy_score_mono hs) (by norm_num : (0:ℚ) ≤ 0.2)
  linarith

/-- Witness for C5 at concrete sub-score inputs. -/
theorem C5_cognitive_load_monotone_witness :
    calculate_cognitive_load_score 3 5 (1/10) 2
      ≤ calculate_cognitive_load_score 4 6 (2/10) 3 :=
  C5_cognitive_load_monotone 3 4 5 6 (1/10) (2/10) 2 3
    (by norm_num) (by norm_num) (by norm_num) (by norm_num)

/-- C6: the visual-hierarchy assessment flags "inverted hierarchy" exactly
when the bottom-third mean saliency exceeds the top-third mean (so not
when top ≥ bottom), flags "right-heavy layout" exactly when the
right-third mean exceeds 1.5 times the left-third mean, and flags "flat
hierarchy" exactly when the variance across the top/middle/bottom means
is below the fixed threshold 0.01. -/
theorem C6_hierarchy_flags (m : SalMapQ) :
    ("hierarchy_inverted" ∈ assess_visual_hierarchy_issues m ↔
        top_third_attention m < bottom_attention m) ∧
      ("hierarchy_right_heavy" ∈ assess_visual_hierarchy_issues m ↔
        left_attention m * 1.5 < right_attention m) ∧
      ("hierarchy_flat" ∈ assess_visual_hierarchy_issues m ↔
        attention_variance m < 0.01) := by
  unfold assess_visual_hierarchy_issues
  split_ifs <;> simp_all

/-- C7: a detected region is classified "high" importance exactly when it
lies in the top 30% of image height, or its bounding-box area exceeds
10000, or its horizontal center is within 20% of image width from the
image center — and "medium" otherwise; in particular a region at y = 50
in a 600px-tall image is tagged `is_top` and classified high. -/
theorem C7_importance_classification :
    (∀ x y w h W H : ℕ,
        (region_importance x y w h W H = "high" ↔
          ((y : ℚ) < (H : ℚ) * 0.3 ∨ 10000 < w * h ∨
            |(x : ℚ) + (w : ℚ) / 2 - (W : ℚ) / 2| < (W : ℚ) * 0.2)) ∧
        (region_importance x y w h W H = "high" ∨
          region_importance x y w h W H = "medium")) ∧
      region_is_top 50 600 = true ∧
      (∀ x w h W : ℕ, region_importance x 50 w h W 600 = "high") := by
  have htop : region_is_top 50 600 = true := by
    unfold region_is_top
    norm_num
  refine ⟨?_, htop, ?_⟩
  · intro x y w h W H
    constructor
    · unfold region_importance region_is_top region_is_large region_is_centered
      by_cases h1 : (y : ℚ) < (H : ℚ) * 0.3 <;>
        by_cases h2 : 10000 < w * h <;>
          by_cases h3 : |(x : ℚ) + (w : ℚ) / 2 - (W : ℚ) / 2| < (W : ℚ) * 0.2 <;>
            simp [h1, h2, h3]
    · unfold region_importance
      split_ifs <;> simp
  · intro x w h W
    unfold region_importance
    rw [htop]
    simp

/-! ### C9: trainer checkpoint policy -/

lemma trainLoop_length {σ τ : Type} (epochs : List (EpochRecord σ τ)) :
    ∀ (best : WithTop ℚ) (k : ℕ), (trainLoop best k epochs).length = epochs.length := by
  induction epochs with
  | nil => intro best k; rfl
  | cons a l ih => intro best k; simp [trainLoop, ih]

lemma decide_ite_min (v : ℚ) (b : WithTop ℚ) :
    (if decide ((v : WithTop ℚ) < b) then ((v : ℚ) : WithTop ℚ) else b)
      = min (v : WithTop ℚ) b := by
  by_cases h : (v : WithTop ℚ) < b
  · simp [h, min_eq_left h.le]
  · simp [h, min_eq_right (not_lt.mp h)]

lemma trainLoop_getElem {σ τ : Type} (epochs : List (EpochRecord σ τ)) :
    ∀ (best : WithTop ℚ) (k i : ℕ) (e : EpochRecord σ τ),
      epochs[i]? = some e →
      (trainLoop best k epochs)[i]? = some
        { savedBest := decide ((e.valLoss : WithTop ℚ) <
            min best (runningMin ((epochs.take i).map EpochRecord.valLoss)))
          bestFile :=
            if (e.valLoss : WithTop ℚ) <
                min best (runningMin ((epochs.take i).map EpochRecord.valLoss))
            then some e.modelState else none
          checkpointFile :=
            if (k + i + 1) % 10 = 0 then
              some ⟨k + i, e.modelState, e.optimState, e.trainLoss, e.valLoss⟩
            else none } := by
  induction epochs with
  | nil => intro best k i e he; simp at he
  | cons a l ih =>
      intro best k i e he
      cases i with
      | zero =>
          rw [List.getElem?_cons_zero] at he
          injection he with he
          subst he
          show (_ :: _)[0]? = _
          rw [List.getElem?_cons_zero]
          simp only [List.take_zero, List.map_nil, Nat.add_zero]
          have hmin : min best (runningMin ([] : List ℚ)) = best := min_eq_left le_top
          simp only [hmin]
          simp
      | succ i =>
          rw [List.getElem?_cons_succ] at he
          show (_ :: _)[i + 1]? = _
          rw [List.getElem?_cons_succ]
          rw [ih _ (k + 1) i e he]
          have hmin : min (if decide ((a.valLoss : WithTop ℚ) < best)
                then ((a.valLoss : ℚ) : WithTop ℚ) else best)
              (runningMin ((l.take i).map EpochRecord.valLoss))
            = min best (runningMin (((a :: l).take (i + 1)).map EpochRecord.valLoss)) := by
            rw [decide_ite_min]
            have h1 : (((a :: l).take (i + 1)).map EpochRecord.valLoss)
                = a.valLoss :: ((l.take i).map EpochRecord.valLoss) := rfl
            have h2 : runningMin (a.valLoss :: ((l.take i).map EpochRecord.valLoss))
                = min ((a.valLoss : ℚ) : WithTop ℚ)
                    (runningMin ((l.take i).map EpochRecord.valLoss)) := rfl
            rw [h1, h2, min_assoc, min_left_comm]
          rw [hmin, Nat.add_right_comm k 1 i]
          rfl

/-- C9: over every training run, the trainer persists the weights as
"best" after an epoch iff that epoch's validation loss is strictly below
the running minimum of all previous validation losses (the initial
`float('inf')` best), and independently persists a full snapshot —
epoch index, model weights, optimizer state, train and validation losses
— after every 10th epoch regardless of improvement. -/
theorem C9_checkpoint_policy {σ τ : Type} (epochs : List (EpochRecord σ τ))
    (i : ℕ) (e : EpochRecord σ τ) (he : epochs[i]? = some e)
    (ev : EpochEvent σ τ) (hev : (trainRun epochs)[i]? = some ev) :
    (ev.savedBest = true ↔
        (e.valLoss : WithTop ℚ) < runningMin ((epochs.take i).map EpochRecord.valLoss)) ∧
      ev.bestFile = (if (e.valLoss : WithTop ℚ) <
          runningMin ((epochs.take i).map EpochRecord.valLoss)
        then some e.modelState else none) ∧
      ev.checkpointFile = (if (i + 1) % 10 = 0 then
          some ⟨i, e.modelState, e.optimState, e.trainLoss, e.valLoss⟩
        else none) := by
  have hspec := trainLoop_getElem epochs ⊤ 0 i e he
  have hmin : min (⊤ : WithTop ℚ) (runningMin ((epochs.take i).map EpochRecord.valLoss))
      = runningMin ((epochs.take i).map EpochRecord.valLoss) :=
    min_eq_right le_top
  rw [hmin] at hspec
  rw [trainRun] at hev
  rw [hspec] at hev
  injection hev with hev
  subst hev
  refine ⟨by simp, rfl, by simp⟩

/-- Witness for C9 on a concrete 2-epoch run (the second epoch improves on
the first, so its weights are saved as best; no 10th epoch occurs). -/
theorem C9_checkpoint_policy_witness :
    ((trainRun [(⟨0, 0, 1, 5⟩ : EpochRecord ℕ ℕ), ⟨1, 1, 1, 3⟩])[1]? =
        some ⟨true, some 1, none⟩) ∧
      ((true = true ↔
          ((3 : ℚ) : WithTop ℚ) <
            runningMin ((([(⟨0, 0, 1, 5⟩ : EpochRecord ℕ ℕ), ⟨1, 1, 1, 3⟩].take 1).map
              EpochRecord.valLoss))) ∧
        (some 1 = if ((3 : ℚ) : WithTop ℚ) <
            runningMin ((([(⟨0, 0, 1, 5⟩ : EpochRecord ℕ ℕ), ⟨1, 1, 1, 3⟩].take 1).map
              EpochRecord.valLoss))
          then some (1 : ℕ) else none) ∧
        (none = if (1 + 1) % 10 = 0 then
            some (⟨1, 1, 1, 1, 3⟩ : CheckpointFile ℕ ℕ) else none)) := by
  have hrun : (trainRun [(⟨0, 0, 1, 5⟩ : EpochRecord ℕ ℕ), ⟨1, 1, 1, 3⟩])[1]? =
      some ⟨true, some 1, none⟩ := by
    show (trainLoop ⊤ 0 _)[1]? = _
    have h5 : ((5 : ℚ) : WithTop ℚ) < ⊤ := WithTop.coe_lt_top _
    have h5n : (5 : WithTop ℚ) < ⊤ := by exact_mod_cast h5
    have h35 : ((3 : ℚ) : WithTop ℚ) < ((5 : ℚ) : WithTop ℚ) := by
      exact_mod_cast (by norm_num : (3 : ℚ) < 5)
    have h35n : (3 : WithTop ℚ) < (5 : WithTop ℚ) := by exact_mod_cast h35
    simp [trainLoop, h5, h35, h5n, h35n]
  refine ⟨hrun, ?_⟩
  have := C9_checkpoint_policy [(⟨0, 0, 1, 5⟩ : EpochRecord ℕ ℕ), ⟨1, 1, 1, 3⟩]
    1 ⟨1, 1, 1, 3⟩ rfl ⟨true, some 1, none⟩ hrun
  simpa using this

/-! ### C10: inference vs training preprocessing -/

lemma convex4_bounds (a b lo hi v1 v2 v3 v4 : ℚ)
    (ha : 0 ≤ a) (ha1 : a ≤ 1) (hb : 0 ≤ b) (hb1 : b ≤ 1)
    (h1 : lo ≤ v1) (h1' : v1 ≤ hi) (h2 : lo ≤ v2) (h2' : v2 ≤ hi)
    (h3 : lo ≤ v3) (h3' : v3 ≤ hi) (h4 : lo ≤ v4) (h4' : v4 ≤ hi) :
    lo ≤ (1 - a) * (1 - b) * v1 + (1 - a) * b * v2 + a * (1 - b) * v3 + a * b * v4 ∧
      (1 - a) * (1 - b) * v1 + (1 - a) * b * v2 + a * (1 - b) * v3 + a * b * v4 ≤ hi := by
  constructor
  · nlinarith [mul_nonneg (mul_nonneg (by linarith : (0:ℚ) ≤ 1 - a) (by linarith : (0:ℚ) ≤ 1 - b)) (by linarith : (0:ℚ) ≤ v1 - lo),
      mul_nonneg (mul_nonneg (by linarith : (0:ℚ) ≤ 1 - a) hb) (by linarith : (0:ℚ) ≤ v2 - lo),
      mul_nonneg (mul_nonneg ha (by linarith : (0:ℚ) ≤ 1 - b)) (by linarith : (0:ℚ) ≤ v3 - lo),
      mul_nonneg (mul_nonneg ha hb) (by linarith : (0:ℚ) ≤ v4 - lo)]
  · nlinarith [mul_nonneg (mul_nonneg (by linarith : (0:ℚ) ≤ 1 - a) (by linarith : (0:ℚ) ≤ 1 - b)) (by linarith : (0:ℚ) ≤ hi - v1),
      mul_nonneg (mul_nonneg (by linarith : (0:ℚ) ≤ 1 - a) hb) (by linarith : (0:ℚ) ≤ hi - v2),
      mul_nonneg (mul_nonneg ha (by linarith : (0:ℚ) ≤ 1 - b)) (by linarith : (0:ℚ) ≤ hi - v3),
      mul_nonneg (mul_nonneg ha hb) (by linarith : (0:ℚ) ≤ hi - v4)]

lemma bilinearResize_bounds (img : ImgQ) (lo hi : ℚ)
    (hp : ∀ c y x, lo ≤ img.pix c y x ∧ img.pix c y x ≤ hi) (H W : ℕ) :
    ∀ c y x, lo ≤ (bilinearResize img H W).pix c y x ∧
      (bilinearResize img H W).pix c y x ≤ hi := by
  intro c y x
  unfold bilinearResize
  dsimp only
  exact convex4_bounds _ _ _ _ _ _ _ _
    (Int.fract_nonneg _) (Int.fract_lt_one _).le
    (Int.fract_nonneg _) (Int.fract_lt_one _).le
    (hp _ _ _).1 (hp _ _ _).2 (hp _ _ _).1 (hp _ _ _).2
    (hp _ _ _).1 (hp _ _ _).2 (hp _ _ _).1 (hp _ _ _).2

lemma bilinearResize_const (img : ImgQ) (k : ℚ) (hp : ∀ c y x, img.pix c y x = k)
    (H W : ℕ) : ∀ c y x, (bilinearResize img H W).pix c y x = k := by
  intro c y x
  unfold bilinearResize
  dsimp only
  rw [hp, hp, hp, hp]
  ring

/-- C10: inference preprocessing is resize-to-256 plus tensor conversion
only, producing channel values in [0,1] with no mean/std normalization,
while the training dataset additionally applies the fixed per-channel
normalization (mean [0.485, 0.456, 0.406], std [0.229, 0.224, 0.225]);
consequently some image yields different tensors under the two
pipelines. -/
theorem C10_preprocessing_divergence :
    (∀ (img : ImgQ) (c : Fin 3) (y x : ℕ),
        (∀ (c' : Fin 3) (y' x' : ℕ), 0 ≤ img.pix c' y' x' ∧ img.pix c' y' x' ≤ 255) →
          0 ≤ inferenceTensor img c y x ∧ inferenceTensor img c y x ≤ 1) ∧
      (∀ (img : ImgQ) (c : Fin 3) (y x : ℕ),
        trainingTensor img c y x
          = (inferenceTensor img c y x - normalizeMean c) / normalizeStd c) ∧
      (∃ (img : ImgQ) (c : Fin 3) (y x : ℕ),
        trainingTensor img c y x ≠ inferenceTensor img c y x) := by
  refine ⟨?_, ?_, ?_⟩
  · intro img c y x hp
    have hb := bilinearResize_bounds img 0 255 hp 256 256 c y x
    unfold inferenceTensor toTensorValue
    constructor
    · exact div_nonneg hb.1 (by norm_num)
    · rw [div_le_one (by norm_num)]
      exact hb.2
  · intro img c y x
    rfl
  · refine ⟨imgWhiteQ, 0, 0, 0, ?_⟩
    have hres := bilinearResize_const imgWhiteQ 255 (fun _ _ _ => rfl) 256 256 0 0 0
    unfold trainingTensor inferenceTensor toTensorValue
    rw [hres]
    norm_num [normalizeMean, normalizeStd]

/-- Witness for C10's range clause at the concrete white image. -/
theorem C10_preprocessing_divergence_witness :
    0 ≤ inferenceTensor imgWhiteQ 0 0 0 ∧ inferenceTensor imgWhiteQ 0 0 0 ≤ 1 :=
  C10_preprocessing_divergence.1 imgWhiteQ 0 0 0
    (fun _ _ _ => ⟨by norm_num [imgWhiteQ], by norm_num [imgWhiteQ]⟩)

/-! ### C1: output range and resolution -/

lemma sigmoid_bounds (z : ℝ) : 0 ≤ sigmoid z ∧ sigmoid z ≤ 1 := by
  unfold sigmoid
  have hpos : 0 < 1 + Real.exp (-z) := by positivity
  refine ⟨by positivity, ?_⟩
  rw [div_le_one hpos]
  have := Real.exp_pos (-z)
  linarith

lemma heuristic_saliency_mem_unit (img : ImgR) (y x : ℕ)
    (hy : y < img.height) (hx : x < img.width) :
    0 ≤ heuristic_saliency img y x ∧ heuristic_saliency img y x ≤ 1 := by
  have hmem : (y, x) ∈ pixelGrid img.height img.width := by
    simp [pixelGrid, Finset.mem_product, hy, hx]
  have hne : (pixelGrid img.height img.width).Nonempty := ⟨(y, x), hmem⟩
  have hmin : blendMin img ≤ heurBlend img y x := by
    unfold blendMin
    rw [dif_pos hne]
    exact Finset.inf'_le _ hmem
  have hmax : heurBlend img y x ≤ blendMax img := by
    unfold blendMax
    rw [dif_pos hne]
    have h := Finset.le_sup' (fun p : ℕ × ℕ => heurBlend img p.1 p.2) hmem
    exact h
  have hD : 0 < blendMax img - blendMin img + 1e-8 := by
    have heps : (0 : ℝ) < 1e-8 := by norm_num
    linarith
  unfold heuristic_saliency
  refine ⟨div_nonneg (by linarith) hD.le, ?_⟩
  rw [div_le_one hD]
  linarith

/-- C1 (code bug, evaluated at the failing 1×1 input): the model half of
the claim holds — `SaliencyModel.forward` is a sigmoid, so its values lie
in [0,1], and its output spatial size equals the designated 256×256 input
size — and the heuristic map carries exactly the input's dimensions with
values in [0,1] for every input with at least one spatial dimension ≥ 2,
where the source's center-bias division is genuine.  But at the 1×1
input `imgUnitR` the source's divisor `max_distance` is exactly 0
(`width // 2 = height // 2 = 0`), so the program computes `0.0 / 0.0`
(NaN in IEEE arithmetic) and the produced map is all-NaN, violating the
claimed all-inputs [0,1] range — and violating the spec's own "never
propagate division-by-zero" requirement (section 7), which marks the
missing guard as a slip in the code rather than a wrong claim. -/
theorem C1_range_resolution_code_bug :
    maxDistance imgUnitR = 0 ∧
      (∀ (P : SaliencyModelParams) (t : ℕ → ℕ → ℕ → ℝ) (o y x : ℕ),
        0 ≤ SaliencyModel_forward P t o y x ∧ SaliencyModel_forward P t o y x ≤ 1) ∧
      SaliencyModel_outSize 256 = 256 ∧
      (∀ img : ImgR, (heuristic_saliency_map img).height = img.height ∧
        (heuristic_saliency_map img).width = img.width) ∧
      (∀ img : ImgR, 2 ≤ img.width ∨ 2 ≤ img.height → 0 < maxDistance img) ∧
      (∀ (img : ImgR) (y x : ℕ), 2 ≤ img.width ∨ 2 ≤ img.height →
        y < img.height → x < img.width →
        0 ≤ heuristic_saliency img y x ∧ heuristic_saliency img y x ≤ 1) := by
  refine ⟨?_, ?_, by decide, fun img => ⟨rfl, rfl⟩, ?_,
    fun img y x _ hy hx => heuristic_saliency_mem_unit img y x hy hx⟩
  · unfold maxDistance imgUnitR
    norm_num
  · intro P t o y x
    show 0 ≤ sigmoid _ ∧ sigmoid _ ≤ 1
    exact sigmoid_bounds _
  · intro img hdim
    unfold maxDistance
    apply Real.sqrt_pos.mpr
    rcases hdim with hw | hh
    · have h1 : 1 ≤ img.width / 2 := by omega
      have h1' : (1 : ℝ) ≤ ((img.width / 2 : ℕ) : ℝ) := by exact_mod_cast h1
      nlinarith [sq_nonneg (((img.height / 2 : ℕ) : ℝ))]
    · have h1 : 1 ≤ img.height / 2 := by omega
      have h1' : (1 : ℝ) ≤ ((img.height / 2 : ℕ) : ℝ) := by exact_mod_cast h1
      nlinarith [sq_nonneg (((img.width / 2 : ℕ) : ℝ))]

/-- Witness for C1's hypotheses at a concrete non-degenerate raster. -/
theorem C1_range_resolution_code_bug_witness :
    0 < maxDistance imgConst100 ∧
      (0 ≤ heuristic_saliency imgConst100 0 0 ∧ heuristic_saliency imgConst100 0 0 ≤ 1) :=
  ⟨C1_range_resolution_code_bug.2.2.2.2.1 imgConst100 (Or.inl (by norm_num [imgConst100])),
    C1_range_resolution_code_bug.2.2.2.2.2 imgConst100 0 0
      (Or.inl (by norm_num [imgConst100]))
      (by norm_num [imgConst100]) (by norm_num [imgConst100])⟩

/-! ### C3: heuristic fallback on missing weights -/

/-- C3 counterexample: the claim says "the analyzer uses the deterministic
heuristic saliency estimator in place of the learned model" whenever the
weight file is absent, and cites `AttentionAnalyzer.__init__`
(attention_analyzer.py) among its sources; that analyzer instead keeps
the randomly initialized untrained model ("Using random predictions"),
so with absent weights its saliency source is not the heuristic. -/
theorem C3_counterexample :
    legacySalSource false = SalSource.untrainedModel ∧
      legacySalSource false ≠ SalSource.heuristic := by
  exact ⟨rfl, by decide⟩

/-- C3 (amended): when the trained weight file is absent,
`ComprehensiveAttentionAnalyzer` substitutes the heuristic estimator for
the learned model with only a logged warning, and its downstream pipeline
is one source-independent function of the chosen map; the legacy
`AttentionAnalyzer` instead proceeds with the untrained model, also with
only a logged warning.  Neither path fails. -/
theorem C3_fallback_amended :
    comprehensiveSalSource false = SalSource.heuristic ∧
      comprehensiveSalSource true = SalSource.trainedModel ∧
      comprehensiveInitLog false = ["Model not found. Using heuristic-based analysis."] ∧
      legacySalSource false = SalSource.untrainedModel ∧
      legacyInitLog false = ["Warning: Model not found. Using random predictions."] ∧
      (∀ (wp : Bool) (P : SaliencyModelParams) (img : ImgR),
        generate_saliency_heatmap wp P img
          = generateSaliencyPost img.height img.width
              (if wp then modelSalMap P img else heuristic_saliency_map img)) := by
  exact ⟨rfl, rfl, rfl, rfl, rfl, fun wp P img => rfl⟩

/-! ### C2: the heuristic blend and its normalization -/

/-- C2 (amended): for every image with at least one spatial dimension ≥ 2
(so that the source's unguarded center-bias division is genuine; at a 1×1
image it is numpy `0.0 / 0.0 = NaN` and poisons the map, see
`maxDistance`), the heuristic saliency equals the linear blend of the
five feature maps with effective weights contrast 0.3, color-uniqueness
0.2, edges 0.2, center-bias 7.5 (= 0.15·50) and F-pattern 38.25
(= 0.15·255), followed by min-max normalization whose denominator
`max − min + 1e-8` is strictly positive — so the normalization itself
never divides by zero. -/
theorem C2_blend_normalization (img : ImgR)
    (hdim : 2 ≤ img.width ∨ 2 ≤ img.height) :
    (∀ y x : ℕ, heuristic_saliency img y x
        = (claimBlendC2 img y x - blendMin img) / (blendMax img - blendMin img + 1e-8)) ∧
      0 < blendMax img - blendMin img + 1e-8 := by
  have hblend : ∀ y x : ℕ, heurBlend img y x = claimBlendC2 img y x := by
    intro y x
    unfold heurBlend claimBlendC2
    ring
  constructor
  · intro y x
    unfold heuristic_saliency
    rw [hblend]
  · by_cases hne : (pixelGrid img.height img.width).Nonempty
    · obtain ⟨p, hp⟩ := hne
      have hmm : blendMin img ≤ blendMax img := by
        unfold blendMin blendMax
        rw [dif_pos ⟨p, hp⟩, dif_pos ⟨p, hp⟩]
        have h1 := Finset.inf'_le (fun p : ℕ × ℕ => heurBlend img p.1 p.2) hp
        have h2 := Finset.le_sup' (fun p : ℕ × ℕ => heurBlend img p.1 p.2) hp
        exact le_trans h1 h2
      have heps : (0 : ℝ) < 1e-8 := by norm_num
      linarith
    · unfold blendMin blendMax
      rw [dif_neg hne, dif_neg hne]
      norm_num

/-- Witness for C2 at the concrete 6×6 constant raster. -/
theorem C2_blend_normalization_witness :
    (∀ y x : ℕ, heuristic_saliency imgConst100 y x
        = (claimBlendC2 imgConst100 y x - blendMin imgConst100) /
          (blendMax imgConst100 - blendMin imgConst100 + 1e-8)) ∧
      0 < blendMax imgConst100 - blendMin imgConst100 + 1e-8 :=
  C2_blend_normalization imgConst100 (Or.inl (by norm_num [imgConst100]))

/-! The constant image: every image-driven feature vanishes, but the
positional priors (center bias, F-pattern) still vary spatially, so the
normalized map of a zero-variance image is not all-zero. -/

lemma const100_gray : ∀ y x : ℤ, grayAt imgConst100 y x = 100 := by
  intro y x
  unfold grayAt pixR imgConst100
  norm_num

lemma const100_blur : ∀ y x : ℕ, gaussBlurGray imgConst100 y x = 100 := by
  intro y x
  unfold gaussBlurGray
  simp only [const100_gray]
  simp [g5, Fin.sum_univ_succ]
  norm_num

lemma const100_contrast : ∀ y x : ℕ, contrastAt imgConst100 y x = 0 := by
  intro y x
  unfold contrastAt
  rw [const100_gray, const100_blur]
  simp

lemma const100_pixR : ∀ (c : Fin 3) (y x : ℤ), pixR imgConst100 c y x = 100 :=
  fun _ _ _ => rfl

lemma const100_box : ∀ (c : Fin 3) (y x : ℕ), boxMean11 imgConst100 c y x = 100 := by
  intro c y x
  unfold boxMean11
  simp only [const100_pixR]
  simp [Finset.sum_const]
  norm_num

lemma const100_colordiff : ∀ y x : ℕ, colorDiffAt imgConst100 y x = 0 := by
  intro y x
  unfold colorDiffAt
  have hz : ∀ c : Fin 3, (imgConst100.pix c y x - boxMean11 imgConst100 c y x) ^ 2 = 0 := by
    intro c
    rw [const100_box]
    show ((100 : ℝ) - 100) ^ 2 = 0
    norm_num
  simp [hz]

lemma const100_mag : ∀ y x : ℕ, cannyMag imgConst100 y x = 0 := by
  intro y x
  have hx : ∀ c : Fin 3, sobelXc imgConst100 c y x = 0 := by
    intro c
    unfold sobelXc
    simp only [const100_pixR]
    ring
  have hy : ∀ c : Fin 3, sobelYc imgConst100 c y x = 0 := by
    intro c
    unfold sobelYc
    simp only [const100_pixR]
    ring
  unfold cannyMag magC
  rw [hx, hx, hx, hy, hy, hy]
  simp

lemma const100_canny : ∀ y x : ℕ, cannyAt imgConst100 50 150 y x = 0 := by
  intro y x
  unfold cannyAt
  rw [if_neg]
  rintro ⟨⟨hlt, -⟩, -⟩
  rw [const100_mag] at hlt
  linarith

lemma const100_blend00 : heurBlend imgConst100 0 0 = 34.425 := by
  unfold heurBlend
  rw [const100_contrast, const100_colordiff, const100_canny]
  have hbias : centerBias imgConst100 0 0 = 0 := by
    unfold centerBias maxDistance imgConst100
    norm_num
  have hf : fPattern imgConst100.height imgConst100.width 0 0 = 0.9 := by
    show fPattern 6 6 0 0 = 0.9
    unfold fPattern
    norm_num
  rw [hbias, hf]
  norm_num

lemma const100_blend33 : heurBlend imgConst100 3 3 = 7.5 := by
  unfold heurBlend
  rw [const100_contrast, const100_colordiff, const100_canny]
  have hbias : centerBias imgConst100 3 3 = 1 := by
    unfold centerBias maxDistance imgConst100
    norm_num
  have hf : fPattern imgConst100.height imgConst100.width 3 3 = 0 := by
    show fPattern 6 6 3 3 = 0
    unfold fPattern
    norm_num
  rw [hbias, hf]
  norm_num

/-- C2 counterexample: the claim asserts a constant (zero-variance) image
yields an all-zero map; on the constant-100 6×6 image the positional
priors still vary (blend 34.425 at (0,0) against 7.5 at (3,3)), so after
the guarded min-max normalization the value at (0,0) is strictly
positive — the map is not all-zero. -/
theorem C2_counterexample :
    ¬ (∀ y x : ℕ, y < imgConst100.height → x < imgConst100.width →
        heuristic_saliency imgConst100 y x = 0) := by
  intro hall
  have hmem33 : ((3, 3) : ℕ × ℕ) ∈ pixelGrid imgConst100.height imgConst100.width := by
    show ((3, 3) : ℕ × ℕ) ∈ pixelGrid 6 6
    simp [pixelGrid]
  have hmem00 : ((0, 0) : ℕ × ℕ) ∈ pixelGrid imgConst100.height imgConst100.width := by
    show ((0, 0) : ℕ × ℕ) ∈ pixelGrid 6 6
    simp [pixelGrid]
  have hne : (pixelGrid imgConst100.height imgConst100.width).Nonempty := ⟨_, hmem33⟩
  have hmin : blendMin imgConst100 ≤ 7.5 := by
    unfold blendMin
    rw [dif_pos hne]
    have h := Finset.inf'_le (fun p : ℕ × ℕ => heurBlend imgConst100 p.1 p.2) hmem33
    rw [const100_blend33] at h
    exact h
  have hmax : 34.425 ≤ blendMax imgConst100 := by
    unfold blendMax
    rw [dif_pos hne]
    have h := Finset.le_sup' (fun p : ℕ × ℕ => heurBlend imgConst100 p.1 p.2) hmem00
    rw [const100_blend00] at h
    exact h
  have hpos : 0 < heuristic_saliency imgConst100 0 0 := by
    unfold heuristic_saliency
    apply div_pos
    · rw [const100_blend00]
      linarith
    · have heps : (0 : ℝ) < 1e-8 := by norm_num
      linarith
  have hzero := hall 0 0 (by norm_num [imgConst100]) (by norm_num [imgConst100])
  rw [hzero] at hpos
  exact lt_irrefl _ hpos

/-! ### C8: bright-square saliency vs background -/

lemma g5_nonneg (j : Fin 5) : 0 ≤ g5 j := by
  fin_cases j <;> norm_num [g5]

lemma g5_sum_one : ∑ j : Fin 5, ∑ i : Fin 5, g5 j * g5 i = 1 := by
  simp [g5, Fin.sum_univ_succ]
  norm_num

lemma gaussWeighted_bounds (lo hi : ℝ) (v : Fin 5 → Fin 5 → ℝ)
    (h : ∀ j i, lo ≤ v j i ∧ v j i ≤ hi) :
    lo ≤ ∑ j : Fin 5, ∑ i : Fin 5, g5 j * g5 i * v j i ∧
      ∑ j : Fin 5, ∑ i : Fin 5, g5 j * g5 i * v j i ≤ hi := by
  have hconst : ∀ k : ℝ, ∑ j : Fin 5, ∑ i : Fin 5, g5 j * g5 i * k
      = (∑ j : Fin 5, ∑ i : Fin 5, g5 j * g5 i) * k := by
    intro k
    rw [Finset.sum_mul]
    exact Finset.sum_congr rfl fun j _ => by rw [Finset.sum_mul]
  constructor
  · have h1 : ∑ j : Fin 5, ∑ i : Fin 5, g5 j * g5 i * lo
        ≤ ∑ j : Fin 5, ∑ i : Fin 5, g5 j * g5 i * v j i := by
      refine Finset.sum_le_sum fun j _ => Finset.sum_le_sum fun i _ => ?_
      exact mul_le_mul_of_nonneg_left (h j i).1 (mul_nonneg (g5_nonneg j) (g5_nonneg i))
    rw [hconst lo, g5_sum_one, one_mul] at h1
    exact h1
  · have h1 : ∑ j : Fin 5, ∑ i : Fin 5, g5 j * g5 i * v j i
        ≤ ∑ j : Fin 5, ∑ i : Fin 5, g5 j * g5 i * hi := by
      refine Finset.sum_le_sum fun j _ => Finset.sum_le_sum fun i _ => ?_
      exact mul_le_mul_of_nonneg_left (h j i).2 (mul_nonneg (g5_nonneg j) (g5_nonneg i))
    rw [hconst hi, g5_sum_one, one_mul] at h1
    exact h1

lemma gaussBlurGray_bounds (img : ImgR) (lo hi : ℝ)
    (h : ∀ a b : ℤ, lo ≤ grayAt img a b ∧ grayAt img a b ≤ hi) (y x : ℕ) :
    lo ≤ gaussBlurGray img y x ∧ gaussBlurGray img y x ≤ hi := by
  unfold gaussBlurGray
  exact gaussWeighted_bounds lo hi _ fun j i => h _ _

lemma gaussBlurGray_const (img : ImgR) (k : ℝ) (y x : ℕ)
    (h : ∀ j i : Fin 5, grayAt img ((y : ℤ) + (j : ℕ) - 2) ((x : ℤ) + (i : ℕ) - 2) = k) :
    gaussBlurGray img y x = k := by
  unfold gaussBlurGray
  have hb := gaussWeighted_bounds k k
    (fun j i => grayAt img ((y : ℤ) + (j : ℕ) - 2) ((x : ℤ) + (i : ℕ) - 2))
    (fun j i => ⟨(h j i).ge, (h j i).le⟩)
  exact le_antisymm hb.2 hb.1

lemma boxMean11_bounds (img : ImgR) (lo hi : ℝ) (c : Fin 3)
    (h : ∀ a b : ℤ, lo ≤ pixR img c a b ∧ pixR img c a b ≤ hi) (y x : ℕ) :
    lo ≤ boxMean11 img c y x ∧ boxMean11 img c y x ≤ hi := by
  unfold boxMean11
  have hl : (121 : ℝ) * lo ≤ ∑ j : Fin 11, ∑ i : Fin 11,
      pixR img c ((y : ℤ) + (j : ℕ) - 5) ((x : ℤ) + (i : ℕ) - 5) := by
    have hle : ∑ _j : Fin 11, ∑ _i : Fin 11, lo ≤ ∑ j : Fin 11, ∑ i : Fin 11,
        pixR img c ((y : ℤ) + (j : ℕ) - 5) ((x : ℤ) + (i : ℕ) - 5) :=
      Finset.sum_le_sum fun j _ => Finset.sum_le_sum fun i _ => (h _ _).1
    calc (121 : ℝ) * lo = ∑ _j : Fin 11, ∑ _i : Fin 11, lo := by
          simp [Finset.sum_const]
          ring
      _ ≤ _ := hle
  have hu : ∑ j : Fin 11, ∑ i : Fin 11,
      pixR img c ((y : ℤ) + (j : ℕ) - 5) ((x : ℤ) + (i : ℕ) - 5) ≤ (121 : ℝ) * hi := by
    have hle : ∑ j : Fin 11, ∑ i : Fin 11,
        pixR img c ((y : ℤ) + (j : ℕ) - 5) ((x : ℤ) + (i : ℕ) - 5)
        ≤ ∑ _j : Fin 11, ∑ _i : Fin 11, hi :=
      Finset.sum_le_sum fun j _ => Finset.sum_le_sum fun i _ => (h _ _).2
    calc ∑ j : Fin 11, ∑ i : Fin 11,
          pixR img c ((y : ℤ) + (j : ℕ) - 5) ((x : ℤ) + (i : ℕ) - 5)
        ≤ ∑ _j : Fin 11, ∑ _i : Fin 11, hi := hle
      _ = (121 : ℝ) * hi := by
          simp [Finset.sum_const]
          ring
  constructor
  · rw [le_div_iff (by norm_num : (0 : ℝ) < 121)]
    linarith
  · rw [div_le_iff (by norm_num : (0 : ℝ) < 121)]
    linarith

lemma boxMean11_const (img : ImgR) (k : ℝ) (c : Fin 3) (y x : ℕ)
    (h : ∀ j i : Fin 11, pixR img c ((y : ℤ) + (j : ℕ) - 5) ((x : ℤ) + (i : ℕ) - 5) = k) :
    boxMean11 img c y x = k := by
  unfold boxMean11
  have hs : ∑ j : Fin 11, ∑ i : Fin 11,
      pixR img c ((y : ℤ) + (j : ℕ) - 5) ((x : ℤ) + (i : ℕ) - 5) = (121 : ℝ) * k := by
    calc ∑ j : Fin 11, ∑ i : Fin 11, pixR img c ((y : ℤ) + (j : ℕ) - 5) ((x : ℤ) + (i : ℕ) - 5)
        = ∑ _j : Fin 11, ∑ _i : Fin 11, k :=
          Finset.sum_congr rfl fun j _ => Finset.sum_congr rfl fun i _ => h j i
      _ = (121 : ℝ) * k := by
          simp [Finset.sum_const]
          ring
  rw [hs]
  ring
lemma sobelXc_abs_le (img : ImgR) (c : Fin 3) (y x : ℕ) (lo hi : ℝ)
    (h : ∀ a b : ℤ, lo ≤ pixR img c a b ∧ pixR img c a b ≤ hi) :
    |sobelXc img c y x| ≤ 4 * (hi - lo) := by
  unfold sobelXc
  obtain ⟨a1, a1'⟩ := h ((y : ℤ) - 1) ((x : ℤ) + 1)
  obtain ⟨a2, a2'⟩ := h (y : ℤ) ((x : ℤ) + 1)
  obtain ⟨a3, a3'⟩ := h ((y : ℤ) + 1) ((x : ℤ) + 1)
  obtain ⟨b1, b1'⟩ := h ((y : ℤ) - 1) ((x : ℤ) - 1)
  obtain ⟨b2, b2'⟩ := h (y : ℤ) ((x : ℤ) - 1)
  obtain ⟨b3, b3'⟩ := h ((y : ℤ) + 1) ((x : ℤ) - 1)
  rw [abs_le]
  constructor <;> linarith

lemma sobelYc_abs_le (img : ImgR) (c : Fin 3) (y x : ℕ) (lo hi : ℝ)
    (h : ∀ a b : ℤ, lo ≤ pixR img c a b ∧ pixR img c a b ≤ hi) :
    |sobelYc img c y x| ≤ 4 * (hi - lo) := by
  unfold sobelYc
  obtain ⟨a1, a1'⟩ := h ((y : ℤ) + 1) ((x : ℤ) - 1)
  obtain ⟨a2, a2'⟩ := h ((y : ℤ) + 1) (x : ℤ)
  obtain ⟨a3, a3'⟩ := h ((y : ℤ) + 1) ((x : ℤ) + 1)
  obtain ⟨b1, b1'⟩ := h ((y : ℤ) - 1) ((x : ℤ) - 1)
  obtain ⟨b2, b2'⟩ := h ((y : ℤ) - 1) (x : ℤ)
  obtain ⟨b3, b3'⟩ := h ((y : ℤ) - 1) ((x : ℤ) + 1)
  rw [abs_le]
  constructor <;> linarith

lemma sobel_zero_of_const (img : ImgR) (c : Fin 3) (y x : ℕ) (k : ℝ)
    (h : ∀ a b : ℤ, (y : ℤ) - 1 ≤ a → a ≤ (y : ℤ) + 1 → (x : ℤ) - 1 ≤ b → b ≤ (x : ℤ) + 1 →
      pixR img c a b = k) :
    sobelXc img c y x = 0 ∧ sobelYc img c y x = 0 := by
  have e1 := h ((y : ℤ) - 1) ((x : ℤ) - 1) (by linarith) (by linarith) (by linarith) (by linarith)
  have e2 := h ((y : ℤ) - 1) (x : ℤ) (by linarith) (by linarith) (by linarith) (by linarith)
  have e3 := h ((y : ℤ) - 1) ((x : ℤ) + 1) (by linarith) (by linarith) (by linarith) (by linarith)
  have e4 := h (y : ℤ) ((x : ℤ) - 1) (by linarith) (by linarith) (by linarith) (by linarith)
  have e5 := h (y : ℤ) ((x : ℤ) + 1) (by linarith) (by linarith) (by linarith) (by linarith)
  have e6 := h ((y : ℤ) + 1) ((x : ℤ) - 1) (by linarith) (by linarith) (by linarith) (by linarith)
  have e7 := h ((y : ℤ) + 1) (x : ℤ) (by linarith) (by linarith) (by linarith) (by linarith)
  have e8 := h ((y : ℤ) + 1) ((x : ℤ) + 1) (by linarith) (by linarith) (by linarith) (by linarith)
  unfold sobelXc sobelYc
  rw [e1, e2, e3, e4, e5, e6, e7, e8]
  constructor <;> ring

lemma cannyMag_le_of_sobel (img : ImgR) (y x : ℕ) (M : ℝ)
    (h : ∀ c : Fin 3, |sobelXc img c y x| + |sobelYc img c y x| ≤ M) :
    cannyMag img y x ≤ M := by
  unfold cannyMag magC
  exact max_le (max_le (h 0) (h 1)) (h 2)

lemma cannyAt_mem (img : ImgR) (low high : ℝ) (y x : ℕ) :
    0 ≤ cannyAt img low high y x ∧ cannyAt img low high y x ≤ 255 := by
  unfold cannyAt
  split_ifs <;> norm_num

lemma cannyAt_zero_of_le_low (img : ImgR) (low high : ℝ) (y x : ℕ)
    (h : cannyMag img y x ≤ low) : cannyAt img low high y x = 0 := by
  unfold cannyAt
  rw [if_neg]
  rintro ⟨⟨hlt, -⟩, -⟩
  linarith

lemma cannyAt_zero_of_no_strong (img : ImgR) (low high : ℝ)
    (h : ∀ y x : ℕ, cannyMag img y x ≤ high) (y x : ℕ) :
    cannyAt img low high y x = 0 := by
  unfold cannyAt
  rw [if_neg]
  rintro ⟨-, s, ⟨hs, -⟩, -⟩
  exact absurd hs (not_lt.mpr (h s.1 s.2))

lemma centerBias_le_one (img : ImgR) (y x : ℕ) : centerBias img y x ≤ 1 := by
  unfold centerBias maxDistance
  have h := div_nonneg (Real.sqrt_nonneg (((x : ℝ) - (img.width / 2 : ℕ)) ^ 2 +
    ((y : ℝ) - (img.height / 2 : ℕ)) ^ 2)) (Real.sqrt_nonneg
    ((((img.width / 2 : ℕ) : ℝ)) ^ 2 + (((img.height / 2 : ℕ) : ℝ)) ^ 2))
  linarith

lemma centerBias_nonneg (img : ImgR) (y x : ℕ)
    (hy : y < img.height) (hx : x < img.width) : 0 ≤ centerBias img y x := by
  unfold centerBias maxDistance
  set cx : ℕ := img.width / 2 with hcx
  set cy : ℕ := img.height / 2 with hcy
  have hxle : (x : ℝ) ≤ 2 * (cx : ℝ) := by
    have : x ≤ 2 * cx := by omega
    exact_mod_cast this
  have hyle : (y : ℝ) ≤ 2 * (cy : ℝ) := by
    have : y ≤ 2 * cy := by omega
    exact_mod_cast this
  have hx0 : (0 : ℝ) ≤ (x : ℝ) := Nat.cast_nonneg x
  have hy0 : (0 : ℝ) ≤ (y : ℝ) := Nat.cast_nonneg y
  have hsq : ((x : ℝ) - cx) ^ 2 + ((y : ℝ) - cy) ^ 2 ≤ (cx : ℝ) ^ 2 + (cy : ℝ) ^ 2 := by
    have h1 : ((x : ℝ) - cx) ^ 2 ≤ (cx : ℝ) ^ 2 := sq_le_sq' (by linarith) (by linarith)
    have h2 : ((y : ℝ) - cy) ^ 2 ≤ (cy : ℝ) ^ 2 := sq_le_sq' (by linarith) (by linarith)
    linarith
  have hmono := Real.sqrt_le_sqrt hsq
  rcases eq_or_lt_of_le (Real.sqrt_nonneg ((cx : ℝ) ^ 2 + (cy : ℝ) ^ 2)) with hz | hz
  · rw [← hz, div_zero]
    norm_num
  · have := (div_le_one hz).mpr hmono
    linarith
lemma fPattern_nonneg (h w y x : ℕ) : 0 ≤ fPattern h w y x := by
  unfold fPattern
  split_ifs <;> norm_num

lemma fPattern_le (h w y x : ℕ) : fPattern h w y x ≤ 0.9 := by
  unfold fPattern
  split_ifs <;> norm_num

lemma fPattern_top_ge (y x : ℕ) (hy : y < 40) : (0.8 : ℝ) ≤ fPattern 120 120 y x := by
  unfold fPattern
  split_ifs <;> first | omega | norm_num

lemma fPattern_low_right_zero (y x : ℕ) (hy : 40 ≤ y) (hx : 60 ≤ x) :
    fPattern 120 120 y x = 0 := by
  unfold fPattern
  split_ifs <;> first | omega | rfl

lemma fPattern_mid_eq (y x : ℕ) (h40 : 40 ≤ y) (h80 : y < 80) :
    fPattern 120 120 y x = if x < 60 then (0.6 : ℝ) else 0 := by
  unfold fPattern
  split_ifs <;> first | omega | rfl

lemma fPattern_bot_eq (y x : ℕ) (h80 : 80 ≤ y) :
    fPattern 120 120 y x = if x < 30 then (0.9 : ℝ) else 0 := by
  unfold fPattern
  split_ifs <;> first | omega | rfl

lemma refl101_ge40 (a : ℤ) (h1 : 40 ≤ a) (h2 : a ≤ 198) : 40 ≤ refl101 120 a := by
  unfold refl101
  split_ifs <;> omega

lemma sum_range_ite2 (n m : ℕ) (hm : m ≤ n) (a b : ℝ) :
    ∑ x ∈ Finset.range n, (if x < m then a else b)
      = (m : ℝ) * a + ((n - m : ℕ) : ℝ) * b := by
  rw [Finset.range_eq_Ico, ← Finset.sum_Ico_consecutive _ (Nat.zero_le m) hm]
  have h1 : ∑ x ∈ Finset.Ico 0 m, (if x < m then a else b) = (m : ℝ) * a := by
    rw [Finset.sum_congr rfl fun x hx => if_pos (Finset.mem_Ico.mp hx).2]
    rw [Finset.sum_const, Nat.card_Ico, Nat.sub_zero, nsmul_eq_mul]
  have h2 : ∑ x ∈ Finset.Ico m n, (if x < m then a else b) = ((n - m : ℕ) : ℝ) * b := by
    rw [Finset.sum_congr rfl fun x hx => if_neg (not_lt.mpr (Finset.mem_Ico.mp hx).1)]
    rw [Finset.sum_const, Nat.card_Ico, nsmul_eq_mul]
  rw [h1, h2]

lemma sum_range_ite3 (n m1 m2 : ℕ) (h1 : m1 ≤ m2) (h2 : m2 ≤ n) (a b c : ℝ) :
    ∑ x ∈ Finset.range n, (if x < m1 then a else if x < m2 then b else c)
      = (m1 : ℝ) * a + ((m2 - m1 : ℕ) : ℝ) * b + ((n - m2 : ℕ) : ℝ) * c := by
  rw [Finset.range_eq_Ico,
    ← Finset.sum_Ico_consecutive _ (Nat.zero_le m1) (le_trans h1 h2),
    ← Finset.sum_Ico_consecutive _ h1 h2]
  have ha : ∑ x ∈ Finset.Ico 0 m1, (if x < m1 then a else if x < m2 then b else c)
      = (m1 : ℝ) * a := by
    rw [Finset.sum_congr rfl fun x hx => if_pos (Finset.mem_Ico.mp hx).2]
    rw [Finset.sum_const, Nat.card_Ico, Nat.sub_zero, nsmul_eq_mul]
  have hb : ∑ x ∈ Finset.Ico m1 m2, (if x < m1 then a else if x < m2 then b else c)
      = ((m2 - m1 : ℕ) : ℝ) * b := by
    have hpt : ∀ x ∈ Finset.Ico m1 m2,
        (if x < m1 then a else if x < m2 then b else c) = b := by
      intro x hx
      obtain ⟨hx1, hx2⟩ := Finset.mem_Ico.mp hx
      rw [if_neg (not_lt.mpr hx1), if_pos hx2]
    rw [Finset.sum_congr rfl hpt, Finset.sum_const, Nat.card_Ico, nsmul_eq_mul]
  have hc : ∑ x ∈ Finset.Ico m2 n, (if x < m1 then a else if x < m2 then b else c)
      = ((n - m2 : ℕ) : ℝ) * c := by
    have hpt : ∀ x ∈ Finset.Ico m2 n,
        (if x < m1 then a else if x < m2 then b else c) = c := by
      intro x hx
      obtain ⟨hx1, hx2⟩ := Finset.mem_Ico.mp hx
      rw [if_neg (by omega), if_neg (by omega)]
    rw [Finset.sum_congr rfl hpt, Finset.sum_const, Nat.card_Ico, nsmul_eq_mul]
  rw [ha, hb, hc]
  ring

lemma blendDenom_pos (img : ImgR) : 0 < blendMax img - blendMin img + 1e-8 := by
  by_cases hne : (pixelGrid img.height img.width).Nonempty
  · obtain ⟨p, hp⟩ := hne
    have hmm : blendMin img ≤ blendMax img := by
      unfold blendMin blendMax
      rw [dif_pos ⟨p, hp⟩, dif_pos ⟨p, hp⟩]
      have hh1 := Finset.inf'_le (fun p : ℕ × ℕ => heurBlend img p.1 p.2) hp
      have hh2 := Finset.le_sup' (fun p : ℕ × ℕ => heurBlend img p.1 p.2) hp
      exact le_trans hh1 hh2
    have heps : (0 : ℝ) < 1e-8 := by norm_num
    linarith
  · unfold blendMin blendMax
    rw [dif_neg hne, dif_neg hne]
    norm_num

lemma div_sub_div_key (S n m D : ℝ) (hn : n ≠ 0) :
    (S - n * m) / (D * n) = (S / n - m) / D := by
  have h1 : S / n - m = (S - n * m) / n := by
    rw [sub_div, mul_comm n m, mul_div_assoc, div_self hn, mul_one]
  rw [h1, div_div, mul_comm n D]

lemma regionMean_norm_eq (img : ImgR) (R : Finset (ℕ × ℕ)) (hR : R.card ≠ 0) :
    regionMean (heuristic_saliency img) R
      = (regionMean (heurBlend img) R - blendMin img) /
        (blendMax img - blendMin img + 1e-8) := by
  have hD := blendDenom_pos img
  have hcard : ((R.card : ℕ) : ℝ) ≠ 0 := Nat.cast_ne_zero.mpr hR
  unfold regionMean heuristic_saliency
  rw [← Finset.sum_div, Finset.sum_sub_distrib, Finset.sum_const, nsmul_eq_mul, div_div]
  exact div_sub_div_key _ _ _ _ hcard

lemma regionMean_lt_of_blend (img : ImgR) (R S : Finset (ℕ × ℕ))
    (hR : R.card ≠ 0) (hS : S.card ≠ 0)
    (h : regionMean (heurBlend img) R < regionMean (heurBlend img) S) :
    regionMean (heuristic_saliency img) R < regionMean (heuristic_saliency img) S := by
  rw [regionMean_norm_eq img R hR, regionMean_norm_eq img S hS]
  have hD := blendDenom_pos img
  gcongr
lemma regionMean_le_of_pointwise (f : ℕ → ℕ → ℝ) (R : Finset (ℕ × ℕ)) (b : ℝ)
    (h : ∀ p ∈ R, f p.1 p.2 ≤ b) (hR : R.card ≠ 0) : regionMean f R ≤ b := by
  unfold regionMean
  have hsum := Finset.sum_le_card_nsmul R (fun p => f p.1 p.2) b h
  rw [nsmul_eq_mul] at hsum
  have hcard : (0 : ℝ) < (R.card : ℝ) :=
    Nat.cast_pos.mpr (Nat.pos_of_ne_zero hR)
  rw [div_le_iff hcard]
  calc (∑ p ∈ R, f p.1 p.2) ≤ (R.card : ℝ) * b := hsum
    _ = b * (R.card : ℝ) := mul_comm _ _

lemma pixBR_bounds (c : Fin 3) : ∀ a b : ℤ,
    251 ≤ pixR imgSqBR c a b ∧ pixR imgSqBR c a b ≤ 255 := by
  intro a b
  unfold pixR imgSqBR
  dsimp only
  split_ifs <;> norm_num

lemma grayBR_bounds : ∀ a b : ℤ, 251 ≤ grayAt imgSqBR a b ∧ grayAt imgSqBR a b ≤ 255 := by
  intro a b
  unfold grayAt
  obtain ⟨h0, h0'⟩ := pixBR_bounds 0 a b
  obtain ⟨h1, h1'⟩ := pixBR_bounds 1 a b
  obtain ⟨h2, h2'⟩ := pixBR_bounds 2 a b
  constructor <;> linarith

lemma contrastBR_le (y x : ℕ) : contrastAt imgSqBR y x ≤ 4 := by
  unfold contrastAt
  obtain ⟨hg, hg'⟩ := grayBR_bounds (y : ℤ) (x : ℤ)
  obtain ⟨hb, hb'⟩ := gaussBlurGray_bounds imgSqBR 251 255 grayBR_bounds y x
  rw [abs_le]
  constructor <;> linarith

lemma pixBR_direct_bounds (c : Fin 3) (y x : ℕ) :
    251 ≤ imgSqBR.pix c y x ∧ imgSqBR.pix c y x ≤ 255 := by
  unfold imgSqBR
  dsimp only
  split_ifs <;> norm_num

lemma colorDiffBR_le (y x : ℕ) : colorDiffAt imgSqBR y x ≤ 7 := by
  unfold colorDiffAt
  have hterm : ∀ c : Fin 3, (imgSqBR.pix c y x - boxMean11 imgSqBR c y x) ^ 2 ≤ 16 := by
    intro c
    obtain ⟨hp, hp'⟩ := pixBR_direct_bounds c y x
    obtain ⟨hb, hb'⟩ := boxMean11_bounds imgSqBR 251 255 c (pixBR_bounds c) y x
    nlinarith
  have hsum : (∑ c : Fin 3, (imgSqBR.pix c y x - boxMean11 imgSqBR c y x) ^ 2) ≤ 49 := by
    rw [Fin.sum_univ_three]
    linarith [hterm 0, hterm 1, hterm 2]
  have h7 : Real.sqrt (∑ c : Fin 3, (imgSqBR.pix c y x - boxMean11 imgSqBR c y x) ^ 2)
      ≤ Real.sqrt 49 := Real.sqrt_le_sqrt hsum
  rwa [show (49 : ℝ) = 7 ^ 2 by norm_num, Real.sqrt_sq (by norm_num : (0 : ℝ) ≤ 7)] at h7

lemma cannyBR_zero (y x : ℕ) : cannyAt imgSqBR 50 150 y x = 0 := by
  apply cannyAt_zero_of_no_strong
  intro y' x'
  have hmag : cannyMag imgSqBR y' x' ≤ 32 := by
    apply cannyMag_le_of_sobel
    intro c
    have hsx := sobelXc_abs_le imgSqBR c y' x' 251 255 (pixBR_bounds c)
    have hsy := sobelYc_abs_le imgSqBR c y' x' 251 255 (pixBR_bounds c)
    linarith
  linarith

lemma biasBR_le (y x : ℕ) (hy1 : 76 ≤ y) (hx1 : 76 ≤ x) :
    centerBias imgSqBR y x ≤ 11 / 15 := by
  unfold centerBias maxDistance imgSqBR
  dsimp only
  rw [show ((120 / 2 : ℕ) : ℝ) = 60 from by norm_num]
  have hx16 : (16 : ℝ) ≤ (x : ℝ) - 60 := by
    have : (76 : ℝ) ≤ (x : ℝ) := by exact_mod_cast hx1
    linarith
  have hy16 : (16 : ℝ) ≤ (y : ℝ) - 60 := by
    have : (76 : ℝ) ≤ (y : ℝ) := by exact_mod_cast hy1
    linarith
  have hD512 : (512 : ℝ) ≤ ((x : ℝ) - 60) ^ 2 + ((y : ℝ) - 60) ^ 2 := by nlinarith
  have hs1 : Real.sqrt 512 ≤ Real.sqrt (((x : ℝ) - 60) ^ 2 + ((y : ℝ) - 60) ^ 2) :=
    Real.sqrt_le_sqrt hD512
  have hs2 : ((60 : ℝ) ^ 2 + (60 : ℝ) ^ 2) = 7200 := by norm_num
  have hval : Real.sqrt 512 / Real.sqrt 7200 = 4 / 15 := by
    rw [← Real.sqrt_div (by norm_num : (0 : ℝ) ≤ 512),
      show (512 / 7200 : ℝ) = (4 / 15) ^ 2 by norm_num]
    exact Real.sqrt_sq (by norm_num)
  rw [hs2]
  have hstep : (4 : ℝ) / 15 ≤ Real.sqrt (((x : ℝ) - 60) ^ 2 + ((y : ℝ) - 60) ^ 2) /
      Real.sqrt 7200 := by
    calc (4 : ℝ) / 15 = Real.sqrt 512 / Real.sqrt 7200 := hval.symm
      _ ≤ _ := by gcongr
  linarith

lemma card_sqBR : sqRegionBR.card = 1600 := by
  rw [sqRegionBR, Finset.card_product, Nat.card_Ico]

lemma sqBR_subset : sqRegionBR ⊆ pixelGrid 120 120 := by
  intro p hp
  rw [sqRegionBR, Finset.mem_product, Finset.mem_Ico, Finset.mem_Ico] at hp
  rw [pixelGrid, Finset.mem_product, Finset.mem_range, Finset.mem_range]
  omega

lemma card_grid120 : (pixelGrid 120 120).card = 14400 := by
  rw [pixelGrid, Finset.card_product, Finset.card_range]

lemma card_bgBR : bgRegionBR.card = 12800 := by
  rw [bgRegionBR, Finset.card_sdiff sqBR_subset, card_grid120, card_sqBR]

lemma blend_nonneg_on_grid (img : ImgR) (y x : ℕ)
    (hy : y < img.height) (hx : x < img.width) : 0 ≤ heurBlend img y x := by
  unfold heurBlend
  have h1 : (0 : ℝ) ≤ contrastAt img y x := abs_nonneg _
  have h2 : (0 : ℝ) ≤ colorDiffAt img y x := Real.sqrt_nonneg _
  have h3 := (cannyAt_mem img 50 150 y x).1
  have h4 := centerBias_nonneg img y x hy hx
  have h5 := fPattern_nonneg img.height img.width y x
  linarith
set_option maxRecDepth 4000 in
/-- C8 counterexample: the claim asserts that for a synthetic image with a
single bright 40×40 square on an otherwise uniform background the square's
mean heuristic saliency strictly exceeds the background's.  On the
120×120 image whose bright (255) square sits bottom-right on a near-white
(251) background, the square region's mean is strictly BELOW the
background's: the fixed F-pattern prior concentrates mass on the
background's top band while the low-contrast square contributes almost
nothing. -/
theorem C8_counterexample :
    regionMean (heuristic_saliency imgSqBR) sqRegionBR
      < regionMean (heuristic_saliency imgSqBR) bgRegionBR := by
  apply regionMean_lt_of_blend
  · rw [card_sqBR]
    norm_num
  · rw [card_bgBR]
    norm_num
  have hsq : regionMean (heurBlend imgSqBR) sqRegionBR ≤ 8.1 := by
    apply regionMean_le_of_pointwise
    · rintro ⟨y, x⟩ hp
      rw [sqRegionBR, Finset.mem_product, Finset.mem_Ico, Finset.mem_Ico] at hp
      obtain ⟨⟨hy1, hy2⟩, hx1, hx2⟩ := hp
      show heurBlend imgSqBR y x ≤ 8.1
      unfold heurBlend
      have h1 := contrastBR_le y x
      have h1' : (0 : ℝ) ≤ contrastAt imgSqBR y x := abs_nonneg _
      have h2 := colorDiffBR_le y x
      have h2' : (0 : ℝ) ≤ colorDiffAt imgSqBR y x := Real.sqrt_nonneg _
      have h3 := cannyBR_zero y x
      have h4 := biasBR_le y x hy1 hx1
      have h5 : fPattern imgSqBR.height imgSqBR.width y x = 0 := by
        show fPattern 120 120 y x = 0
        exact fPattern_low_right_zero y x (by omega) (by omega)
      rw [h3, h5]
      linarith
    · rw [card_sqBR]
      norm_num
  have hbg : (11.475 : ℝ) ≤ regionMean (heurBlend imgSqBR) bgRegionBR := by
    have hTsub : (Finset.range 40 ×ˢ Finset.range 120 : Finset (ℕ × ℕ)) ⊆ bgRegionBR := by
      intro p hp
      rw [Finset.mem_product, Finset.mem_range, Finset.mem_range] at hp
      rw [bgRegionBR, Finset.mem_sdiff, pixelGrid, sqRegionBR,
        Finset.mem_product, Finset.mem_product, Finset.mem_range, Finset.mem_range,
        Finset.mem_Ico, Finset.mem_Ico]
      omega
    have hnn : ∀ p ∈ bgRegionBR, 0 ≤ heurBlend imgSqBR p.1 p.2 := by
      rintro ⟨y, x⟩ hp
      rw [bgRegionBR, Finset.mem_sdiff, pixelGrid, Finset.mem_product,
        Finset.mem_range, Finset.mem_range] at hp
      exact blend_nonneg_on_grid imgSqBR y x hp.1.1 hp.1.2
    have hT : ∀ p ∈ (Finset.range 40 ×ˢ Finset.range 120 : Finset (ℕ × ℕ)),
        (30.6 : ℝ) ≤ heurBlend imgSqBR p.1 p.2 := by
      rintro ⟨y, x⟩ hp
      simp only [Finset.mem_product, Finset.mem_range] at hp
      obtain ⟨hy40, hx120⟩ := hp
      show (30.6 : ℝ) ≤ heurBlend imgSqBR y x
      unfold heurBlend
      have h1 : (0 : ℝ) ≤ contrastAt imgSqBR y x := abs_nonneg _
      have h2 : (0 : ℝ) ≤ colorDiffAt imgSqBR y x := Real.sqrt_nonneg _
      have h3 := (cannyAt_mem imgSqBR 50 150 y x).1
      have h4 : (0 : ℝ) ≤ centerBias imgSqBR y x :=
        centerBias_nonneg imgSqBR y x (by show y < 120; omega) (by show x < 120; omega)
      have h5 : (0.8 : ℝ) ≤ fPattern imgSqBR.height imgSqBR.width y x := by
        show (0.8 : ℝ) ≤ fPattern 120 120 y x
        exact fPattern_top_ge y x hy40
      linarith
    have hsumT : (146880 : ℝ) ≤
        ∑ p ∈ (Finset.range 40 ×ˢ Finset.range 120 : Finset (ℕ × ℕ)),
          heurBlend imgSqBR p.1 p.2 := by
      have hc := Finset.card_nsmul_le_sum
        (Finset.range 40 ×ˢ Finset.range 120 : Finset (ℕ × ℕ))
        (fun p => heurBlend imgSqBR p.1 p.2) (30.6 : ℝ) hT
      rw [nsmul_eq_mul, Finset.card_product, Finset.card_range, Finset.card_range] at hc
      norm_num at hc
      linarith
    have hsumbg : (146880 : ℝ) ≤ ∑ p ∈ bgRegionBR, heurBlend imgSqBR p.1 p.2 := by
      calc (146880 : ℝ)
          ≤ ∑ p ∈ (Finset.range 40 ×ˢ Finset.range 120 : Finset (ℕ × ℕ)),
            heurBlend imgSqBR p.1 p.2 := hsumT
        _ ≤ ∑ p ∈ bgRegionBR, heurBlend imgSqBR p.1 p.2 :=
            Finset.sum_le_sum_of_subset_of_nonneg hTsub fun p hp _ => hnn p hp
    unfold regionMean
    rw [card_bgBR, le_div_iff (by norm_num : (0 : ℝ) < ((12800 : ℕ) : ℝ))]
    calc (11.475 : ℝ) * ((12800 : ℕ) : ℝ) = 146880 := by norm_num
      _ ≤ _ := hsumbg
  calc regionMean (heurBlend imgSqBR) sqRegionBR ≤ 8.1 := hsq
    _ < 11.475 := by norm_num
    _ ≤ regionMean (heurBlend imgSqBR) bgRegionBR := hbg
lemma regionMean_ge_of_pointwise (f : ℕ → ℕ → ℝ) (R : Finset (ℕ × ℕ)) (b : ℝ)
    (h : ∀ p ∈ R, b ≤ f p.1 p.2) (hR : R.card ≠ 0) : b ≤ regionMean f R := by
  unfold regionMean
  have hsum := Finset.card_nsmul_le_sum R (fun p => f p.1 p.2) b h
  rw [nsmul_eq_mul] at hsum
  have hcard : (0 : ℝ) < (R.card : ℝ) :=
    Nat.cast_pos.mpr (Nat.pos_of_ne_zero hR)
  rw [le_div_iff hcard]
  calc b * (R.card : ℝ) = (R.card : ℝ) * b := mul_comm _ _
    _ ≤ _ := hsum

lemma pixTL_bounds (c : Fin 3) : ∀ a b : ℤ,
    200 ≤ pixR imgSqTL c a b ∧ pixR imgSqTL c a b ≤ 255 := by
  intro a b
  unfold pixR imgSqTL
  dsimp only
  split_ifs <;> norm_num

lemma pixTL_direct_bounds (c : Fin 3) (y x : ℕ) :
    200 ≤ imgSqTL.pix c y x ∧ imgSqTL.pix c y x ≤ 255 := by
  unfold imgSqTL
  dsimp only
  split_ifs <;> norm_num

lemma pixTL_far (c : Fin 3) (a b : ℤ)
    (h : (40 ≤ a ∧ a ≤ 198) ∨ (40 ≤ b ∧ b ≤ 198)) : pixR imgSqTL c a b = 200 := by
  unfold pixR imgSqTL
  dsimp only
  rw [if_neg]
  rcases h with ⟨h1, h2⟩ | ⟨h1, h2⟩
  · have := refl101_ge40 a h1 h2
    omega
  · have := refl101_ge40 b h1 h2
    omega

lemma grayTL_bounds : ∀ a b : ℤ, 200 ≤ grayAt imgSqTL a b ∧ grayAt imgSqTL a b ≤ 255 := by
  intro a b
  unfold grayAt
  obtain ⟨h0, h0'⟩ := pixTL_bounds 0 a b
  obtain ⟨h1, h1'⟩ := pixTL_bounds 1 a b
  obtain ⟨h2, h2'⟩ := pixTL_bounds 2 a b
  constructor <;> linarith

lemma grayTL_far (a b : ℤ)
    (h : (40 ≤ a ∧ a ≤ 198) ∨ (40 ≤ b ∧ b ≤ 198)) : grayAt imgSqTL a b = 200 := by
  unfold grayAt
  rw [pixTL_far 0 a b h, pixTL_far 1 a b h, pixTL_far 2 a b h]
  norm_num

lemma contrastTL_le (y x : ℕ) : contrastAt imgSqTL y x ≤ 55 := by
  unfold contrastAt
  obtain ⟨hg, hg'⟩ := grayTL_bounds (y : ℤ) (x : ℤ)
  obtain ⟨hb, hb'⟩ := gaussBlurGray_bounds imgSqTL 200 255 grayTL_bounds y x
  rw [abs_le]
  constructor <;> linarith

lemma contrastTL_zero (y x : ℕ) (h : 42 ≤ y ∨ 42 ≤ x)
    (hy : y < 120) (hx : x < 120) : contrastAt imgSqTL y x = 0 := by
  have hfar : ∀ a b : ℤ, ((y : ℤ) - 2 ≤ a ∧ a ≤ (y : ℤ) + 2) →
      ((x : ℤ) - 2 ≤ b ∧ b ≤ (x : ℤ) + 2) → grayAt imgSqTL a b = 200 := by
    intro a b ⟨ha1, ha2⟩ ⟨hb1, hb2⟩
    apply grayTL_far
    rcases h with hy42 | hx42
    · left
      constructor <;> omega
    · right
      constructor <;> omega
  have hblur : gaussBlurGray imgSqTL y x = 200 := by
    apply gaussBlurGray_const
    intro j i
    have hj := j.isLt
    have hi := i.isLt
    apply hfar
    · constructor <;> omega
    · constructor <;> omega
  have hgray : grayAt imgSqTL (y : ℤ) (x : ℤ) = 200 := by
    apply hfar <;> constructor <;> omega
  unfold contrastAt
  rw [hgray, hblur]
  simp

lemma colorDiffTL_le (y x : ℕ) : colorDiffAt imgSqTL y x ≤ 96 := by
  unfold colorDiffAt
  have hterm : ∀ c : Fin 3, (imgSqTL.pix c y x - boxMean11 imgSqTL c y x) ^ 2 ≤ 3025 := by
    intro c
    obtain ⟨hp, hp'⟩ := pixTL_direct_bounds c y x
    obtain ⟨hb, hb'⟩ := boxMean11_bounds imgSqTL 200 255 c (pixTL_bounds c) y x
    nlinarith
  have hsum : (∑ c : Fin 3, (imgSqTL.pix c y x - boxMean11 imgSqTL c y x) ^ 2) ≤ 9216 := by
    rw [Fin.sum_univ_three]
    linarith [hterm 0, hterm 1, hterm 2]
  have h96 : Real.sqrt (∑ c : Fin 3, (imgSqTL.pix c y x - boxMean11 imgSqTL c y x) ^ 2)
      ≤ Real.sqrt 9216 := Real.sqrt_le_sqrt hsum
  rwa [show (9216 : ℝ) = 96 ^ 2 by norm_num,
    Real.sqrt_sq (by norm_num : (0 : ℝ) ≤ 96)] at h96

lemma colorDiffTL_zero (y x : ℕ) (h : 45 ≤ y ∨ 45 ≤ x)
    (hy : y < 120) (hx : x < 120) : colorDiffAt imgSqTL y x = 0 := by
  have hbox : ∀ c : Fin 3, boxMean11 imgSqTL c y x = 200 := by
    intro c
    apply boxMean11_const
    intro j i
    have hj := j.isLt
    have hi := i.isLt
    apply pixTL_far
    rcases h with hy45 | hx45
    · left
      constructor <;> omega
    · right
      constructor <;> omega
  have hpix : ∀ c : Fin 3, imgSqTL.pix c y x = 200 := by
    intro c
    unfold imgSqTL
    dsimp only
    rw [if_neg (by omega)]
  unfold colorDiffAt
  have hz : ∀ c : Fin 3, (imgSqTL.pix c y x - boxMean11 imgSqTL c y x) ^ 2 = 0 := by
    intro c
    rw [hpix c, hbox c]
    norm_num
  have : (∑ c : Fin 3, (imgSqTL.pix c y x - boxMean11 imgSqTL c y x) ^ 2) = 0 := by
    rw [Fin.sum_univ_three, hz 0, hz 1, hz 2]
    norm_num
  rw [this, Real.sqrt_zero]

lemma cannyTL_zero_far (y x : ℕ) (h : 41 ≤ y ∨ 41 ≤ x)
    (hy : y < 120) (hx : x < 120) : cannyAt imgSqTL 50 150 y x = 0 := by
  apply cannyAt_zero_of_le_low
  have hsob : ∀ c : Fin 3, sobelXc imgSqTL c y x = 0 ∧ sobelYc imgSqTL c y x = 0 := by
    intro c
    apply sobel_zero_of_const imgSqTL c y x 200
    intro a b ha1 ha2 hb1 hb2
    apply pixTL_far
    rcases h with hy41 | hx41
    · left
      constructor <;> omega
    · right
      constructor <;> omega
  have hmag : cannyMag imgSqTL y x ≤ 0 := by
    apply cannyMag_le_of_sobel
    intro c
    rw [(hsob c).1, (hsob c).2]
    simp
  linarith
lemma card_sqTL : sqRegionTL.card = 1600 := by
  rw [sqRegionTL, Finset.card_product, Nat.card_Ico]

lemma sqTL_subset : sqRegionTL ⊆ pixelGrid 120 120 := by
  intro p hp
  rw [sqRegionTL, Finset.mem_product, Finset.mem_Ico, Finset.mem_Ico] at hp
  rw [pixelGrid, Finset.mem_product, Finset.mem_range, Finset.mem_range]
  omega

lemma card_bgTL : bgRegionTL.card = 12800 := by
  rw [bgRegionTL, Finset.card_sdiff sqTL_subset, card_grid120, card_sqTL]

lemma fPattern_grid_sum_le :
    ∑ p ∈ pixelGrid 120 120, fPattern 120 120 p.1 p.2 ≤ 6840 := by
  rw [pixelGrid, Finset.sum_product]
  have hbound : ∀ y ∈ Finset.range 120, (∑ x ∈ Finset.range 120, fPattern 120 120 y x)
      ≤ (if y < 40 then (108 : ℝ) else if y < 80 then 36 else 27) := by
    intro y _
    by_cases hy40 : y < 40
    · rw [if_pos hy40]
      calc ∑ x ∈ Finset.range 120, fPattern 120 120 y x
          ≤ ∑ _x ∈ Finset.range 120, (0.9 : ℝ) :=
            Finset.sum_le_sum fun x _ => fPattern_le 120 120 y x
        _ = 108 := by
            rw [Finset.sum_const, Finset.card_range, nsmul_eq_mul]
            norm_num
    · rw [if_neg hy40]
      by_cases hy80 : y < 80
      · rw [if_pos hy80]
        rw [Finset.sum_congr rfl fun x _ => fPattern_mid_eq y x (by omega) hy80]
        rw [sum_range_ite2 120 60 (by norm_num) 0.6 0]
        norm_num
      · rw [if_neg hy80]
        rw [Finset.sum_congr rfl fun x _ => fPattern_bot_eq y x (by omega)]
        rw [sum_range_ite2 120 30 (by norm_num) 0.9 0]
        norm_num
  calc ∑ y ∈ Finset.range 120, ∑ x ∈ Finset.range 120, fPattern 120 120 y x
      ≤ ∑ y ∈ Finset.range 120, (if y < 40 then (108 : ℝ) else if y < 80 then 36 else 27) :=
        Finset.sum_le_sum hbound
    _ = 6840 := by
        rw [sum_range_ite3 120 40 80 (by norm_num) (by norm_num) 108 36 27]
        norm_num

lemma fPattern_sqTL_sum_ge :
    (1280 : ℝ) ≤ ∑ p ∈ sqRegionTL, fPattern 120 120 p.1 p.2 := by
  have hpt : ∀ p ∈ sqRegionTL, (0.8 : ℝ) ≤ fPattern 120 120 p.1 p.2 := by
    rintro ⟨y, x⟩ hp
    simp only [sqRegionTL, Finset.mem_product, Finset.mem_Ico] at hp
    exact fPattern_top_ge y x hp.1.2
  have hc := Finset.card_nsmul_le_sum sqRegionTL
    (fun p => fPattern 120 120 p.1 p.2) (0.8 : ℝ) hpt
  rw [card_sqTL, nsmul_eq_mul] at hc
  norm_num at hc
  linarith

lemma fPattern_bgTL_sum_le :
    ∑ p ∈ bgRegionTL, fPattern 120 120 p.1 p.2 ≤ 5560 := by
  have hsplit := Finset.sum_sdiff (f := fun p : ℕ × ℕ => fPattern 120 120 p.1 p.2) sqTL_subset
  have h1 := fPattern_grid_sum_le
  have h2 := fPattern_sqTL_sum_ge
  rw [bgRegionTL]
  linarith

lemma sum_cap_bgTL (m : ℕ) (hm40 : 40 ≤ m) (hm120 : m ≤ 120) (K : ℝ) :
    ∑ p ∈ bgRegionTL, (if p.1 < m ∧ p.2 < m then K else 0)
      = ((m * m - 1600 : ℕ) : ℝ) * K := by
  have hfil : bgRegionTL.filter (fun p => p.1 < m ∧ p.2 < m)
      = (Finset.range m ×ˢ Finset.range m) \ sqRegionTL := by
    ext p
    simp only [bgRegionTL, pixelGrid, sqRegionTL, Finset.mem_filter, Finset.mem_sdiff,
      Finset.mem_product, Finset.mem_range, Finset.mem_Ico]
    omega
  have hsub : sqRegionTL ⊆ Finset.range m ×ˢ Finset.range m := by
    intro p hp
    rw [sqRegionTL, Finset.mem_product, Finset.mem_Ico, Finset.mem_Ico] at hp
    rw [Finset.mem_product, Finset.mem_range, Finset.mem_range]
    omega
  have hcard : (bgRegionTL.filter (fun p => p.1 < m ∧ p.2 < m)).card = m * m - 1600 := by
    rw [hfil, Finset.card_sdiff hsub, Finset.card_product, Finset.card_range, card_sqTL]
  rw [Finset.sum_ite, Finset.sum_const, Finset.sum_const, hcard]
  simp [nsmul_eq_mul]
set_option maxRecDepth 4000 in
/-- C8 (amended): for a synthetic image with a single bright 40×40 square
on an otherwise uniform background, the heuristic saliency assigns the
square's region a mean strictly greater than the background's mean,
provided the square sits in the top-left (high F-pattern weight) region
with strong contrast — witnessed by the 120×120 image with a bright (255)
square at rows/cols 0..39 on a 200-valued background.  (Placement and
contrast matter: the counterexample shows a faint bottom-right square
reverses the inequality.) -/
theorem C8_bright_square_amended :
    regionMean (heuristic_saliency imgSqTL) bgRegionTL
      < regionMean (heuristic_saliency imgSqTL) sqRegionTL := by
  apply regionMean_lt_of_blend
  · rw [card_bgTL]
    norm_num
  · rw [card_sqTL]
    norm_num
  have hsq : (30.6 : ℝ) ≤ regionMean (heurBlend imgSqTL) sqRegionTL := by
    apply regionMean_ge_of_pointwise
    · rintro ⟨y, x⟩ hp
      simp only [sqRegionTL, Finset.mem_product, Finset.mem_Ico] at hp
      obtain ⟨⟨-, hy40⟩, -, hx40⟩ := hp
      show (30.6 : ℝ) ≤ heurBlend imgSqTL y x
      unfold heurBlend
      have h1 : (0 : ℝ) ≤ contrastAt imgSqTL y x := abs_nonneg _
      have h2 : (0 : ℝ) ≤ colorDiffAt imgSqTL y x := Real.sqrt_nonneg _
      have h3 := (cannyAt_mem imgSqTL 50 150 y x).1
      have h4 : (0 : ℝ) ≤ centerBias imgSqTL y x :=
        centerBias_nonneg imgSqTL y x (by show y < 120; omega) (by show x < 120; omega)
      have h5 : (0.8 : ℝ) ≤ fPattern imgSqTL.height imgSqTL.width y x := by
        show (0.8 : ℝ) ≤ fPattern 120 120 y x
        exact fPattern_top_ge y x hy40
      linarith
    · rw [card_sqTL]
      norm_num
  have hbgpt : ∀ p ∈ bgRegionTL, heurBlend imgSqTL p.1 p.2
      ≤ (if p.1 < 42 ∧ p.2 < 42 then (55 : ℝ) else 0) * 0.3
        + (if p.1 < 45 ∧ p.2 < 45 then (96 : ℝ) else 0) * 0.2
        + (if p.1 < 41 ∧ p.2 < 41 then (255 : ℝ) else 0) * 0.2
        + 7.5 + fPattern 120 120 p.1 p.2 * 38.25 := by
    rintro ⟨y, x⟩ hp
    simp only [bgRegionTL, pixelGrid, sqRegionTL, Finset.mem_sdiff, Finset.mem_product,
      Finset.mem_range, Finset.mem_Ico] at hp
    obtain ⟨⟨hy120, hx120⟩, hnotsq⟩ := hp
    dsimp only
    unfold heurBlend
    have hbias := centerBias_le_one imgSqTL y x
    have hfshow : fPattern imgSqTL.height imgSqTL.width y x = fPattern 120 120 y x := rfl
    have hcC : contrastAt imgSqTL y x ≤ (if y < 42 ∧ x < 42 then (55 : ℝ) else 0) := by
      split_ifs with hin
      · exact contrastTL_le y x
      · rw [contrastTL_zero y x (by omega) hy120 hx120]
    have hcD : colorDiffAt imgSqTL y x ≤ (if y < 45 ∧ x < 45 then (96 : ℝ) else 0) := by
      split_ifs with hin
      · exact colorDiffTL_le y x
      · rw [colorDiffTL_zero y x (by omega) hy120 hx120]
    have hcE : cannyAt imgSqTL 50 150 y x ≤ (if y < 41 ∧ x < 41 then (255 : ℝ) else 0) := by
      split_ifs with hin
      · exact (cannyAt_mem imgSqTL 50 150 y x).2
      · rw [cannyTL_zero_far y x (by omega) hy120 hx120]
    rw [hfshow]
    have hbias0 : (0 : ℝ) ≤ centerBias imgSqTL y x :=
      centerBias_nonneg imgSqTL y x (by show y < 120; omega) (by show x < 120; omega)
    linarith
  have hbgsum : ∑ p ∈ bgRegionTL, heurBlend imgSqTL p.1 p.2 ≤ 323667 := by
    have hle := Finset.sum_le_sum hbgpt
    have e1 := sum_cap_bgTL 42 (by norm_num) (by norm_num) (55 : ℝ)
    have e2 := sum_cap_bgTL 45 (by norm_num) (by norm_num) (96 : ℝ)
    have e3 := sum_cap_bgTL 41 (by norm_num) (by norm_num) (255 : ℝ)
    have e4 := fPattern_bgTL_sum_le
    rw [Finset.sum_add_distrib, Finset.sum_add_distrib, Finset.sum_add_distrib,
      Finset.sum_add_distrib, ← Finset.sum_mul, ← Finset.sum_mul, ← Finset.sum_mul,
      ← Finset.sum_mul, Finset.sum_const, card_bgTL, e1, e2, e3, nsmul_eq_mul] at hle
    norm_num at hle
    linarith
  have hbgmean : regionMean (heurBlend imgSqTL) bgRegionTL ≤ 323667 / 12800 := by
    unfold regionMean
    rw [card_bgTL, show ((12800 : ℕ) : ℝ) = 12800 from by norm_num]
    gcongr <;> norm_num
  calc regionMean (heurBlend imgSqTL) bgRegionTL ≤ 323667 / 12800 := hbgmean
    _ < 30.6 := by norm_num
    _ ≤ regionMean (heurBlend imgSqTL) sqRegionTL := hsq

end ARAI
